import Mathlib

/-!
Verification of the natural-language specification of the NL-to-SQL banking
query pipeline against a shallow embedding of its source code.

The embedding covers, from `src/Agent/sql_validator.py`:
  * the text-fix stage at the top of `SQLValidator.validate_query` (Fixes 1-5),
  * `SQLValidator.check_safety` (operation whitelist, destructive-keyword
    check, WHERE guard, the three injection heuristics),
  * `SQLValidator._validate_schema` and `SQLValidator.suggest_correction`,
  * the composition `SQLValidator.validate_query` (with the sqlite dry-run
    `parse_sql` and the live schema treated as external oracles, as the spec
    itself treats the database engine as an external collaborator);
from `src/Agent/gemini_agent.py`:
  * the date-column correction block of `GeminiAgent.get_sql_from_nl`
    (protect / word-rewrite / restore / preserve-functions),
  * `GeminiAgent._add_limit_safely` and its `LIMIT`-presence guard,
  * `GeminiAgent.check_ambiguity` and `GeminiAgent._simple_ambiguity_check`;
and from `src/app.py` the selection of the validator-rewritten SQL before
execution.

Strings are modelled as `List Char`.  Python `str.replace` / `re.sub` of a
literal pattern are modelled by a fuel-indexed left-to-right non-overlapping
replacement; the word-boundary regexes are modelled by scanners that track
the previous character of the original text, exactly as `\b` does.
-/

set_option maxHeartbeats 4000000
set_option maxRecDepth 20000

/-- Python `\w` (ASCII word character): letters, digits, underscore. -/
def wordCharB (c : Char) : Bool := c.isAlphanum || c == '_'

/-- Python whitespace class `\s` (ASCII): the six characters stripped by
`str.strip()` and matched by `\s` on ASCII text. -/
def isSpacePy (c : Char) : Bool :=
  c == ' ' || c == '\t' || c == '\n' || c == '\r' || c == '\x0b' || c == '\x0c'

/-- Character upper-casing, as Python `str.upper()` on ASCII text. -/
def upChar (c : Char) : Char := c.toUpper

/-- Character lower-casing, as Python `str.lower()` on ASCII text. -/
def lowChar (c : Char) : Char := c.toLower

/-- `str.upper()` on a text. -/
def upperL (s : List Char) : List Char := s.map upChar

/-- `str.lower()` on a text. -/
def lowerL (s : List Char) : List Char := s.map lowChar

/-- Python `needle in haystack` (substring containment). -/
def subB (n : List Char) : List Char → Bool
  | [] => n.isEmpty
  | c :: s => n.isPrefixOf (c :: s) || subB n s

/-- Case-insensitive `startswith`. -/
def ciPrefix (p s : List Char) : Bool := (upperL p).isPrefixOf (upperL s)

/-- Match test for one `replace` step: raw for `str.replace`,
case-folded for a `re.IGNORECASE` literal pattern. -/
def matchPre (ci : Bool) (p s : List Char) : Bool :=
  if ci then (upperL p).isPrefixOf (upperL s) else p.isPrefixOf s

/-- Fuel-indexed left-to-right non-overlapping literal replacement:
the semantics of Python `str.replace(p, t)` (and of `re.sub` on the
`re.escape`d pattern `p` when `ci = true`). -/
def replF (ci : Bool) (p t : List Char) : Nat → List Char → List Char
  | 0, s => s
  | _ + 1, [] => []
  | fuel + 1, c :: s =>
    if matchPre ci p (c :: s) then t ++ replF ci p t fuel ((c :: s).drop p.length)
    else c :: replF ci p t fuel s

/-- Python `s.replace(p, t)` (case-sensitive) / `re.sub(re.escape(p), t, s,
flags=re.IGNORECASE)` (case-insensitive). -/
def repl (ci : Bool) (p t s : List Char) : List Char := replF ci p t s.length s

/-- Left boundary state for `\b`: no previous character, or a non-word one. -/
def bOK : Option Char → Bool
  | none => true
  | some c => !wordCharB c

/-- Right boundary for `\b`: end of text, or a non-word next character. -/
def bRB (r : List Char) : Bool :=
  match r.head? with
  | none => true
  | some c => !wordCharB c

/-- Left boundary as a property of the text to the left. -/
def bLB (l : List Char) : Bool :=
  match l.getLast? with
  | none => true
  | some c => !wordCharB c

/-- Scanner for `re.search(r"\bW\b", s, re.IGNORECASE)` with `W` a word
given in upper case: tracks the previous original character. -/
def containsWordB (w : List Char) : Option Char → List Char → Bool
  | _, [] => false
  | prev, c :: s =>
    (bOK prev && (upperL ((c :: s).take w.length) == w) && bRB ((c :: s).drop w.length))
    || containsWordB w (some c) s

/-- `re.search(r"\bW\b", s.upper())` for an upper-case word `W`. -/
def hasWord (w s : List Char) : Bool := containsWordB w none s

/-- Fuel-indexed scanner for `re.sub(r"\bdate\b", t, s, re.IGNORECASE)`:
replaces each whole-word case-insensitive occurrence of `w`, with the `\b`
boundaries taken from the original text (as `re.sub` does). -/
def replWordF (w t : List Char) : Nat → Option Char → List Char → List Char
  | 0, _, s => s
  | _ + 1, _, [] => []
  | fuel + 1, prev, c :: s =>
    if bOK prev && (upperL ((c :: s).take w.length) == upperL w) && bRB ((c :: s).drop w.length)
    then t ++ replWordF w t fuel (((c :: s).take w.length).getLast?) ((c :: s).drop w.length)
    else c :: replWordF w t fuel (some c) s

/-- `re.sub(r"\bw\b", t, s, flags=re.IGNORECASE)`. -/
def replWord (w t s : List Char) : List Char := replWordF w t s.length none s

/-- Python `str.split()` word of a split: auxiliary accumulator form. -/
def splitWsAux : List Char → List Char → List (List Char)
  | [], cur => if cur.isEmpty then [] else [cur.reverse]
  | c :: s, cur =>
    if isSpacePy c then
      if cur.isEmpty then splitWsAux s [] else cur.reverse :: splitWsAux s []
    else splitWsAux s (c :: cur)

/-- Python `str.split()` (split on whitespace runs, dropping empties). -/
def splitWs (s : List Char) : List (List Char) := splitWsAux s []

/-- Python `str.strip()` from the left. -/
def lstripWs (s : List Char) : List Char := s.dropWhile isSpacePy

/-- Python `str.rstrip()` . -/
def rstripWs (s : List Char) : List Char := (s.reverse.dropWhile isSpacePy).reverse

/-- Python `str.strip()`. -/
def stripWs (s : List Char) : List Char := rstripWs (lstripWs s)

/-- Python `str.rstrip(';')`. -/
def rstripSemi (s : List Char) : List Char := (s.reverse.dropWhile (· == ';')).reverse

/-- First index of a literal substring, as Python `str.find` (auxiliary). -/
def findSubAux (n : List Char) (i : Nat) : List Char → Option Nat
  | [] => if n.isEmpty then some i else none
  | c :: s => if n.isPrefixOf (c :: s) then some i else findSubAux n (i + 1) s

/-- First index of a literal substring, as Python `str.find` (when present). -/
def findSub (n s : List Char) : Option Nat := findSubAux n 0 s

example : repl false ("aa".toList) ("b".toList) ("aaa".toList) = "ba".toList := by decide
example : subB ("date".toList) ("update".toList) = true := by decide
example : hasWord ("DROP".toList) ("x Drop y".toList) = true := by decide
example : hasWord ("DROP".toList) ("xDrop y".toList) = false := by decide
example : replWord ("date".toList) ("transaction_date".toList) ("a date(b".toList)
    = "a transaction_date(b".toList := by decide
example : splitWs ("  a bb  c ".toList) = [("a".toList), ("bb".toList), ("c".toList)] := by decide
example : stripWs (" a b  ".toList) = "a b".toList := by decide
example : findSub ("ORDER BY".toList) ("x ORDER BY y".toList) = some 2 := by decide

/-- Mutating keywords of the multiple-statement injection heuristic. -/
def mutKws : List (List Char) :=
  [("DROP".toList), ("DELETE".toList), ("UPDATE".toList), ("INSERT".toList),
   ("CREATE".toList), ("ALTER".toList)]

/-- Scanner for `re.search(r";\s*(DROP|DELETE|UPDATE|INSERT|CREATE|ALTER)",
sql, re.IGNORECASE)` (sql_validator.py line 240). -/
def inj1B : List Char → Bool
  | [] => false
  | c :: s =>
    (c == ';' && mutKws.any fun k => ciPrefix k (s.dropWhile isSpacePy)) || inj1B s

/-- The rest of the line (a `.` in a Python regex does not cross `\n`). -/
def lineOf (s : List Char) : List Char := s.takeWhile (· != '\n')

def orAndWords : List (List Char) := [("OR".toList), ("AND".toList)]

/-- Inner scan of the comment-injection heuristic: a whole-word `OR`/`AND`
followed, on the same line, by `=`. -/
def orAndEqScan : Option Char → List Char → Bool
  | _, [] => false
  | prev, c :: s =>
    (orAndWords.any fun w =>
      bOK prev && (upperL ((c :: s).take w.length) == w)
        && bRB ((c :: s).drop w.length) && ((c :: s).drop w.length).contains '=')
    || orAndEqScan (some c) s

/-- Scanner for `re.search(r"--.*\b(OR|AND)\b.*=", sql, re.IGNORECASE)`
(sql_validator.py line 243). -/
def inj2B : List Char → Bool
  | [] => false
  | c :: s =>
    (c == '-' &&
      (match s with
       | c2 :: s2 => c2 == '-' && orAndEqScan (some '-') (lineOf s2)
       | [] => false))
    || inj2B s

/-- `SELECT` with a trailing `\b`, case-insensitively, at the head. -/
def selectHereB (s : List Char) : Bool :=
  (upperL (s.take 6) == "SELECT".toList) && bRB (s.drop 6)

/-- Scanner for `re.search(r"\bUNION\s+(ALL\s+)?SELECT\b", sql,
re.IGNORECASE)` (sql_validator.py line 246). -/
def unionScan : Option Char → List Char → Bool
  | _, [] => false
  | prev, c :: s =>
    (bOK prev && (upperL ((c :: s).take 5) == "UNION".toList) &&
      (match (c :: s).drop 5 with
       | [] => false
       | d :: r2 =>
         isSpacePy d &&
           (let r3 := r2.dropWhile isSpacePy
            selectHereB r3 ||
              ((upperL (r3.take 3) == "ALL".toList) &&
                (match r3.drop 3 with
                 | [] => false
                 | e :: r4 => isSpacePy e && selectHereB (r4.dropWhile isSpacePy))))))
    || unionScan (some c) s

/-- Scanner for `re.search(r'select\s+\*', sql_lower)`
(sql_validator.py line 286, applied to the lower-cased text). -/
def selStarB : List Char → Bool
  | [] => false
  | c :: s =>
    (((c :: s).take 6 == "select".toList) &&
      (match (c :: s).drop 6 with
       | d :: r => isSpacePy d && (r.dropWhile isSpacePy).head? == some '*'
       | [] => false))
    || selStarB s

/-- `select\s+count\s*\(\s*\*\s*\)` anchored at the head of the text. -/
def countStarHere (s : List Char) : Bool :=
  (s.take 6 == "select".toList) &&
  (match s.drop 6 with
   | d :: r =>
     isSpacePy d &&
       (let r1 := r.dropWhile isSpacePy
        (r1.take 5 == "count".toList) &&
          (match (r1.drop 5).dropWhile isSpacePy with
           | '(' :: r3 =>
             (match r3.dropWhile isSpacePy with
              | '*' :: r5 => (r5.dropWhile isSpacePy).head? == some ')'
              | _ => false)
           | _ => false))
   | [] => false)

/-- Scanner for `re.search(r'select\s+count\s*\(\s*\*\s*\)', sql_lower)`. -/
def countStarB : List Char → Bool
  | [] => false
  | c :: s => countStarHere (c :: s) || countStarB s

def aggKws : List (List Char) :=
  [("count".toList), ("sum".toList), ("avg".toList), ("max".toList), ("min".toList)]

/-- Scanner for `re.search(r'\b(count|sum|avg|max|min)\s*\(', sql_lower)`
(sql_validator.py line 294). -/
def aggScan : Option Char → List Char → Bool
  | _, [] => false
  | prev, c :: s =>
    (aggKws.any fun k =>
      bOK prev && ((c :: s).take k.length == k) &&
        (((c :: s).drop k.length).dropWhile isSpacePy).head? == some '(')
    || aggScan (some c) s

def aggB (s : List Char) : Bool := aggScan none s

/-- Fix 1 of `validate_query`: the `date` → `transaction_date` replacements
(sql_validator.py lines 67-86), in source order, including the two
date-function restorations at the end of the block. -/
def dateRules : List (List Char × List Char) :=
  [ ("ORDER BY date".toList, "ORDER BY transaction_date".toList),
    ("SELECT date".toList, "SELECT transaction_date".toList),
    ("SELECT *, date".toList, "SELECT *, transaction_date".toList),
    ("SELECT date,".toList, "SELECT transaction_date,".toList),
    (", date".toList, ", transaction_date".toList),
    (", date,".toList, ", transaction_date,".toList),
    (", date ".toList, ", transaction_date ".toList),
    (" date ".toList, " transaction_date ".toList),
    (" date,".toList, " transaction_date,".toList),
    (" date)".toList, " transaction_date)".toList),
    ("(date)".toList, "(transaction_date)".toList),
    (".date".toList, ".transaction_date".toList),
    ("date FROM".toList, "transaction_date FROM".toList),
    ("date WHERE".toList, "transaction_date WHERE".toList),
    ("date ORDER".toList, "transaction_date ORDER".toList),
    ("date LIMIT".toList, "transaction_date LIMIT".toList),
    ("transaction_date('now'".toList, "date('now'".toList),
    ("transaction_date(".toList, "date(".toList) ]

/-- Fix 2 of `validate_query`: the customer-`name` replacements
(sql_validator.py lines 94-103), in source order. -/
def nameRules : List (List Char × List Char) :=
  [ ("c.name".toList, "c.first_name || ' ' || c.last_name".toList),
    ("customers.name".toList, "customers.first_name || ' ' || customers.last_name".toList),
    ("SELECT name".toList, "SELECT first_name || ' ' || last_name AS name".toList),
    ("SELECT *, name".toList, "SELECT *, first_name || ' ' || last_name AS name".toList),
    (", name".toList, ", first_name || ' ' || last_name AS name".toList),
    (" name ".toList, " first_name || ' ' || last_name ".toList),
    (" name,".toList, " first_name || ' ' || last_name AS name,".toList),
    ("ORDER BY name".toList, "ORDER BY first_name || ' ' || last_name".toList),
    ("name LIKE".toList, "first_name || ' ' || last_name LIKE".toList),
    ("WHERE name".toList, "WHERE first_name || ' ' || last_name".toList) ]

/-- Fix 3 of `validate_query`: the ambiguous-column dictionary
(sql_validator.py lines 108-125), in insertion order. -/
def ambigRules : List (List Char × List Char) :=
  [ ("SELECT type".toList, "SELECT t.type".toList),
    (", type,".toList, ", t.type,".toList),
    (", type ".toList, ", t.type ".toList),
    ("WHERE type".toList, "WHERE t.type".toList),
    ("ORDER BY type".toList, "ORDER BY t.type".toList),
    ("SELECT status".toList, "SELECT t.status".toList),
    (", status,".toList, ", t.status,".toList),
    (", status ".toList, ", t.status ".toList),
    ("WHERE status".toList, "WHERE t.status".toList),
    ("ORDER BY status".toList, "ORDER BY t.status".toList),
    ("SELECT id".toList, "SELECT t.id".toList) ]

/-- The normalisation applied to an ambiguous-column pattern before the
guard test of Fix 3 (the chained `.replace(...)` calls on line 130). -/
def normalizeP (p : List Char) : List Char :=
  repl false (" ".toList) []
    (repl false (", ".toList) []
      (repl false ("ORDER BY ".toList) []
        (repl false ("WHERE ".toList) []
          (repl false ("SELECT ".toList) [] p))))

/-- The exclusion list of the Fix 3 guard (line 130). -/
def ambigForbidden : List (List Char) :=
  [("t.type".toList), ("t.status".toList), ("t.id".toList),
   ("a.type".toList), ("a.status".toList), ("c.id".toList)]

/-- Fix 4 of `validate_query`: the table-reference dictionary
(sql_validator.py lines 137-161), in insertion order. -/
def tableRules : List (List Char × List Char) :=
  [ ("customer.name".toList, "customer.first_name || ' ' || customer.last_name".toList),
    ("customer.id".toList, "c.id".toList),
    ("customer.email".toList, "c.email".toList),
    ("account.id".toList, "a.id".toList),
    ("account.balance".toList, "a.balance".toList),
    ("account.type".toList, "a.type".toList),
    ("transaction.id".toList, "t.id".toList),
    ("transaction.amount".toList, "t.amount".toList),
    ("transaction.type".toList, "t.type".toList),
    ("transaction.date".toList, "t.transaction_date".toList),
    ("employee.name".toList, "e.name".toList),
    ("employee.id".toList, "e.id".toList),
    ("branch.name".toList, "b.name".toList),
    ("branch.id".toList, "b.id".toList) ]

/-- Fix 5 of `validate_query`: the typo dictionary (lines 169-179),
replaced case-insensitively, in insertion order. -/
def typoRules : List (List Char × List Char) :=
  [ ("costumer".toList, "customer".toList),
    ("costumers".toList, "customers".toList),
    ("trasaction".toList, "transaction".toList),
    ("trasactions".toList, "transactions".toList),
    ("accout".toList, "account".toList),
    ("acounts".toList, "accounts".toList),
    ("employe".toList, "employee".toList),
    ("employes".toList, "employees".toList),
    ("employeees".toList, "employees".toList) ]

/-- Apply a list of literal replacements in order. -/
def applyRules (ci : Bool) (rules : List (List Char × List Char)) (s : List Char) :
    List Char :=
  rules.foldl (fun s pr => repl ci pr.1 pr.2 s) s

/-- Fix 1 of `validate_query` (lines 64-87): the `date` replacements, under
their source trigger condition. -/
def fixDate (s : List Char) : List Char :=
  if subB ("no such column: date".toList) (lowerL s) || subB (" date ".toList) s
      || subB (" date,".toList) s
  then applyRules false dateRules s else s

/-- Fix 2 of `validate_query` (lines 90-105): the customer-`name`
replacements, under their source trigger condition. -/
def fixName (s : List Char) : List Char :=
  if subB ("no such column: name".toList) (lowerL s) || subB ("c.name".toList) s
      || subB ("customers.name".toList) s
  then applyRules false nameRules s else s

/-- Fix 3 of `validate_query` (lines 127-134): the ambiguous-column
replacements, applied only when the text mentions a join or a FROM, each
under the per-pattern guard of line 130. -/
def fixAmbig (s : List Char) : List Char :=
  if subB (" JOIN ".toList) (upperL s) || subB (" FROM ".toList) (upperL s)
  then ambigRules.foldl
      (fun s pr =>
        if subB pr.1 s && !(ambigForbidden.contains (normalizeP pr.1))
        then repl false pr.1 pr.2 s else s) s
  else s

/-- Fix 4 of `validate_query` (lines 163-166): the table-reference
replacements. -/
def fixTable (s : List Char) : List Char :=
  tableRules.foldl (fun s pr => if subB pr.1 s then repl false pr.1 pr.2 s else s) s

/-- Fix 5 of `validate_query` (lines 181-189): the case-insensitive typo
replacements. -/
def fixTypo (s : List Char) : List Char :=
  typoRules.foldl (fun s pr => if subB pr.1 (lowerL s) then repl true pr.1 pr.2 s else s) s

/-- The text-fix stage at the top of `SQLValidator.validate_query`
(sql_validator.py lines 59-194): Fixes 1-5 applied in order. -/
def fixStage (sql0 : List Char) : List Char :=
  fixTypo (fixTable (fixAmbig (fixName (fixDate sql0))))

def strictOps : List (List Char) := [("SELECT".toList)]

def moderateOps : List (List Char) :=
  [("SELECT".toList), ("UPDATE".toList), ("DELETE".toList)]

def lenientOps : List (List Char) :=
  [("SELECT".toList), ("INSERT".toList), ("UPDATE".toList), ("DELETE".toList)]

/-- `SQLValidator.check_safety` (sql_validator.py lines 217-248); the result
is the `(safe, message)` pair of the returned dictionary.  The destructive
and DELETE/UPDATE regexes run on `sql.upper()` in the source, which is the
same as a case-insensitive whole-word scan of the original text. -/
def check_safety (level sql : List Char) : Bool × List Char :=
  let up := upperL sql
  let lvl := lowerL level
  let allowedOps :=
    if lvl == "strict".toList then strictOps
    else if lvl == "moderate".toList then moderateOps
    else lenientOps
  if !(allowedOps.any fun op => op.isPrefixOf up) then
    (false, ("Operation not allowed in ".toList) ++ lvl ++ (" mode.".toList))
  else if hasWord ("DROP".toList) sql || hasWord ("TRUNCATE".toList) sql
      || hasWord ("ALTER".toList) sql then
    (false, "Dangerous operation detected (DROP/TRUNCATE/ALTER not allowed).".toList)
  else if (hasWord ("DELETE".toList) sql || hasWord ("UPDATE".toList) sql)
      && !subB ("WHERE".toList) up then
    (false, "DELETE/UPDATE must have a WHERE clause.".toList)
  else if inj1B sql then
    (false, "Possible SQL injection attempt detected (multiple statements).".toList)
  else if inj2B sql then
    (false, "Possible SQL injection attempt detected (comment injection).".toList)
  else if unionScan none sql && !ciPrefix ("SELECT".toList) sql then
    (false, "Possible SQL injection attempt detected (UNION injection).".toList)
  else (true, "Safe query.".toList)

/-- `SQLValidator._validate_schema` (sql_validator.py lines 268-298), over a
schema catalog given as a (table, columns) list; the result is the
`(valid, message)` pair. -/
def validate_schema (schema : List (List Char × List (List Char))) (sql : List Char) :
    Bool × List Char :=
  let tables := schema.map Prod.fst
  let columns := schema.foldr (fun pr acc => pr.2 ++ acc) []
  let low := lowerL sql
  if !(tables.any fun t => subB t low) then
    (false, "No valid table referenced in query.".toList)
  else if selStarB low || countStarB low then
    (true, "Schema validation passed (wildcard or count).".toList)
  else if columns.any fun col => subB col low then
    (true, "Schema validation passed.".toList)
  else if aggB low then
    (true, "Schema validation passed (aggregate function).".toList)
  else (false, "No valid column referenced in query.".toList)

/-- `SQLValidator.suggest_correction` (lines 300-310); the `sql` parameter
of the source is unused by its body. -/
def suggest_correction (errMsg : List Char) : List Char :=
  if subB ("syntax error".toList) errMsg then
    "Check SQL syntax, missing keywords, or misplaced commas.".toList
  else if subB ("no such table".toList) errMsg then
    "Check table name spelling and existence.".toList
  else if subB ("no such column".toList) errMsg then
    "Check column name spelling and existence.".toList
  else "Review SQL query for errors.".toList

/-- The validator's result dictionary: `safe`, `valid`, `message`, the
optional `suggestion`, and the `sql` key, present only on the success
path (sql_validator.py line 215). -/
structure VResult where
  safe : Bool
  valid : Bool
  message : List Char
  suggestion : Option (List Char) := none
  sql : Option (List Char) := none
deriving DecidableEq

/-- `SQLValidator.validate_query` (sql_validator.py lines 53-215).  The
sqlite dry-run `parse_sql` is the external database probe of the spec: it
is passed as an oracle `parse` returning `none` on success and `some
errText` on failure; the schema catalog fetched from the live database is
passed as `schema`. -/
def validate_query (level : List Char) (parse : List Char → Option (List Char))
    (schema : List (List Char × List (List Char))) (sql0 : List Char) : VResult :=
  let sql := fixStage sql0
  let cs := check_safety level sql
  if !cs.1 then { safe := false, valid := false, message := cs.2 }
  else
    match parse sql with
    | some err =>
        { safe := false, valid := false,
          message := ("SQL syntax error: ".toList) ++ err,
          suggestion := some (suggest_correction err) }
    | none =>
        let sv := validate_schema schema sql
        if !sv.1 then { safe := false, valid := false, message := sv.2 }
        else { safe := true, valid := true, message := "Query is valid.".toList,
               sql := some sql }

/-- The banking schema as declared in the agent's system prompt
(gemini_agent.py lines 33-37).  The live database file the validator's
`_get_schema` reads is not part of the sources; this catalog is the one the
prompt requires the whole pipeline to work against. -/
def bankingSchema : List (List Char × List (List Char)) :=
  [ ("customers".toList,
      [("id".toList), ("email".toList), ("phone".toList), ("address".toList),
       ("first_name".toList), ("last_name".toList), ("date_of_birth".toList),
       ("gender".toList), ("national_id".toList), ("created_at".toList),
       ("updated_at".toList), ("branch_id".toList)]),
    ("accounts".toList,
      [("id".toList), ("customer_id".toList), ("account_number".toList),
       ("type".toList), ("balance".toList), ("opened_at".toList),
       ("interest_rate".toList), ("status".toList), ("branch_id".toList),
       ("created_at".toList), ("updated_at".toList)]),
    ("transactions".toList,
      [("id".toList), ("account_id".toList), ("transaction_date".toList),
       ("amount".toList), ("type".toList), ("description".toList),
       ("status".toList), ("created_at".toList), ("updated_at".toList),
       ("employee_id".toList)]),
    ("branches".toList,
      [("id".toList), ("name".toList), ("address".toList), ("city".toList),
       ("state".toList), ("zip_code".toList), ("manager_id".toList),
       ("created_at".toList), ("updated_at".toList)]),
    ("employees".toList,
      [("id".toList), ("branch_id".toList), ("name".toList), ("email".toList),
       ("phone".toList), ("position".toList), ("hire_date".toList),
       ("salary".toList), ("created_at".toList), ("updated_at".toList)]) ]

/-- The compound-date-column protection dictionary of `get_sql_from_nl`
(gemini_agent.py lines 591-596), in insertion order. -/
def protectPairs : List (List Char × List Char) :=
  [ ("date_of_birth".toList, "TEMP_PROTECT_DOB".toList),
    ("birth_date".toList, "TEMP_PROTECT_BD".toList),
    ("hire_date".toList, "TEMP_PROTECT_HD".toList),
    ("opened_at".toList, "TEMP_PROTECT_OA".toList) ]

/-- The inverse restoration of `protectPairs` (lines 605-607). -/
def restorePairs : List (List Char × List Char) :=
  [ ("TEMP_PROTECT_DOB".toList, "date_of_birth".toList),
    ("TEMP_PROTECT_BD".toList, "birth_date".toList),
    ("TEMP_PROTECT_HD".toList, "hire_date".toList),
    ("TEMP_PROTECT_OA".toList, "opened_at".toList) ]

/-- The date-column correction block of `GeminiAgent.get_sql_from_nl`
(gemini_agent.py lines 587-612): protect compound date columns, rewrite the
standalone word `date` (word boundary, case-insensitive), restore the
placeholders, then re-restore date function calls. -/
def date_column_fix (s : List Char) : List Char :=
  let s1 := applyRules false protectPairs s
  let s2 := replWord ("date".toList) ("transaction_date".toList) s1
  let s3 := applyRules false restorePairs s2
  let s4 := repl false ("transaction_date('now'".toList) ("date('now'".toList) s3
  let s5 := repl false ("transaction_date(".toList) ("date(".toList) s4
  repl false ("strftransaction_date(".toList) ("strfdate(".toList) s5

/-- `GeminiAgent._add_limit_safely` (gemini_agent.py lines 639-662).  The
`none` arm of the match is unreachable: that branch is guarded by the
`ORDER BY` containment test. -/
def add_limit_safely (q : List Char) : List Char :=
  let up := upperL q
  let c1 := stripWs q
  if subB ("LIMIT".toList) up then c1
  else
    let c2 := stripWs (rstripSemi c1)
    if subB ("ORDER BY".toList) up then
      match findSub ("ORDER BY".toList) up with
      | some k =>
          stripWs (q.take k) ++ (" ".toList) ++ stripWs (q.drop k)
            ++ (" LIMIT 1000".toList)
      | none => c2 ++ (" LIMIT 1000".toList)
    else c2 ++ (" LIMIT 1000".toList)

/-- The result-size bound as called in `get_sql_from_nl` (line 616): the
helper runs only when no `LIMIT` is present anywhere in the text. -/
def limitRule (q : List Char) : List Char :=
  if subB ("LIMIT".toList) (upperL q) then q else add_limit_safely q

/-- The agent-side correction applied to a generated query: the date-column
fix followed by the guarded result-size bound. -/
def agentCorrect (q : List Char) : List Char := limitRule (date_column_fix q)

/-- The full ordered correction pipeline of the spec (SQLTextCorrector):
the agent-side correction followed by the validator's fix stage, in the
order the program applies them to a generated query. -/
def correctPipeline (q : List Char) : List Char := fixStage (agentCorrect q)

/-- `app.process_query` (app.py lines 227-233): after validation, the text
handed to the executor is the validator result's `sql` field when that key
is present, otherwise the caller's text. -/
def executedSql (vr : VResult) (sql : List Char) : List Char :=
  match vr.sql with
  | some s => s
  | none => sql

/-- A conversation-context value: a free-text entry or a nested mapping
(the `clarifications` answers). -/
inductive CtxVal where
  | strV : List Char → CtxVal
  | dictV : List (List Char × List Char) → CtxVal
deriving DecidableEq

/-- The classifier's result dictionary. -/
structure AmbiguityResult where
  is_ambiguous : Bool
  explanation : List Char
  questions : List (List Char)
deriving DecidableEq

/-- The `ambiguity_patterns` dictionary of `_simple_ambiguity_check`
(gemini_agent.py lines 370-457): term ↦ (questions, explanation),
in insertion order. -/
def ambiguityPatterns : List (List Char × (List (List Char) × List Char)) :=
  [ ("recent".toList,
      ([("How recent? (e.g., 'last 7 days', 'last month', 'this year')".toList),
        ("Do you want the most recent items first?".toList)],
       "I need to know what time period you consider 'recent'.".toList)),
    ("old".toList,
      ([("How far back should I look? (e.g., '6 months ago', 'last year', 'older than 2 years')".toList),
        ("Should I include closed/inactive records?".toList)],
       "Please specify what time period you consider 'old'.".toList)),
    ("large".toList,
      ([("What amount would you consider large? (e.g., 'over $1,000', 'more than $10,000')".toList),
        ("Are you looking at individual transactions or total amounts?".toList)],
       "I need to know what dollar amount you consider 'large'.".toList)),
    ("small".toList,
      ([("What's your threshold for small amounts? (e.g., 'under $100', 'less than $500')".toList)],
       "Please specify what you consider a 'small' amount.".toList)),
    ("high".toList,
      ([("What range do you consider high? (e.g., 'over $50,000', 'more than $100,000')".toList)],
       "Please clarify what threshold you consider 'high'.".toList)),
    ("low".toList,
      ([("What range do you consider low? (e.g., 'under $1,000', 'less than $5,000')".toList)],
       "Please specify what you consider 'low' values.".toList)),
    ("john".toList,
      ([("Which John? (Please provide last name or customer ID)".toList),
        ("Is this first name, last name, or part of the full name?".toList)],
       "There may be multiple customers named John - I need more specific identification.".toList)),
    ("smith".toList,
      ([("Which Smith? (Please provide first name or customer ID)".toList)],
       "Smith is a common name - please provide more details for identification.".toList)),
    ("my".toList,
      ([("Which account? (e.g., 'checking', 'savings', 'all accounts')".toList)],
       "Please specify which of your accounts you're asking about.".toList)),
    ("many".toList,
      ([("How many would you consider 'many'? (e.g., 'more than 10', 'over 50')".toList)],
       "Please specify what quantity you consider 'many'.".toList)),
    ("few".toList,
      ([("What number range is 'few' to you? (e.g., '1-5', 'less than 10')".toList)],
       "Please clarify what you consider 'few' items.".toList)),
    ("transactions".toList,
      ([("What type of transactions? (e.g., 'all types', 'deposits only', 'withdrawals')".toList)],
       "There are different types of transactions - please specify which ones you're interested in.".toList)) ]

/-- The fixed priority order of trigger terms (gemini_agent.py line 464). -/
def priorityTerms : List (List Char) :=
  [("recent".toList), ("old".toList), ("large".toList), ("small".toList),
   ("high".toList), ("low".toList), ("my".toList), ("john".toList),
   ("smith".toList), ("many".toList), ("few".toList), ("transactions".toList)]

/-- Dictionary lookup in `ambiguity_patterns`. -/
def lookupPattern (t : List Char) : Option (List (List Char) × List Char) :=
  (ambiguityPatterns.find? (fun pr => pr.1 == t)).map Prod.snd

/-- The action verbs of the short-query check (gemini_agent.py line 480). -/
def actionVerbs : List (List Char) :=
  [("show".toList), ("find".toList), ("list".toList), ("display".toList)]

/-- `GeminiAgent._simple_ambiguity_check` (gemini_agent.py lines 362-492):
first matching priority term wins (questions capped at 2); otherwise a
short query not containing an action verb is flagged as too brief;
otherwise the query is clear. -/
def simple_ambiguity_check (u : List Char) : AmbiguityResult :=
  let low := lowerL u
  match priorityTerms.find? (fun t => subB t low && (lookupPattern t).isSome) with
  | some t =>
    match lookupPattern t with
    | some pr => { is_ambiguous := true, explanation := pr.2, questions := pr.1.take 2 }
    | none => { is_ambiguous := false, explanation := "Query appears clear".toList,
                questions := [] }
  | none =>
    if (splitWs u).length ≤ 3 && !(actionVerbs.any fun w => subB w low) then
      { is_ambiguous := true,
        explanation := "Your query is quite brief - a bit more detail would help me give you better results.".toList,
        questions := [("What specific information are you looking for?".toList),
                      ("Any particular time period or amount range?".toList)] }
    else { is_ambiguous := false, explanation := "Query appears clear".toList,
           questions := [] }

/-- `GeminiAgent.check_ambiguity` (gemini_agent.py lines 273-285): a truthy
context containing a `clarifications` key skips classification outright. -/
def check_ambiguity (u : List Char) (context : Option (List (List Char × CtxVal))) :
    AmbiguityResult :=
  match context with
  | some d =>
    if !d.isEmpty && d.any (fun pr => pr.1 == "clarifications".toList) then
      { is_ambiguous := false,
        explanation := "Query enhanced with user clarifications or proceeding with smart defaults".toList,
        questions := [] }
    else simple_ambiguity_check u
  | none => simple_ambiguity_check u

example :
    fixStage ("SELECT date, 'update FROM' FROM transactions".toList)
      = ("SELECT transaction_date, 'uptransaction_date FROM' FROM transactions".toList) := by
  decide

example :
    check_safety ("strict".toList)
      ("SELECT transaction_date, 'uptransaction_date FROM' FROM transactions".toList)
      = (true, "Safe query.".toList) := by
  decide

example :
    fixStage ("SELECT c.name FROM customers c LIMIT 10".toList)
      = ("SELECT c.first_name || ' ' || c.last_name FROM customers c LIMIT 10".toList) := by
  decide

example :
    correctPipeline ("SELECT trasaction.id FROM trasactions".toList)
      = ("SELECT transaction.id FROM transactions LIMIT 1000".toList) := by
  decide

example :
    correctPipeline ("SELECT transaction.id FROM transactions LIMIT 1000".toList)
      = ("SELECT t.id FROM transactions LIMIT 1000".toList) := by
  decide

example :
    date_column_fix ("SELECT date FROM transactions WHERE date > date('now','-7 days')".toList)
      = ("SELECT transaction_date FROM transactions WHERE transaction_date > date('now','-7 days')".toList) := by
  decide

example :
    date_column_fix ("SELECT date ('now','-7 days')".toList)
      = ("SELECT transaction_date ('now','-7 days')".toList) := by
  decide

example :
    (simple_ambiguity_check ("now showing".toList)).is_ambiguous = false := by decide

example :
    (simple_ambiguity_check ("show me recent large payments".toList)).explanation
      = ("I need to know what time period you consider 'recent'.".toList) := by decide

/-- `no1B p w`: no occurrence of the pattern `p` can begin inside a
whole-word (case-insensitive) occurrence of `w`: for every nonempty suffix
`w2` of `w`, the upper-cased `p` is not a prefix of `w2`, and if `w2` is a
prefix of the upper-cased `p` then the pattern character just past `w2` is
a word character (which contradicts the word's right boundary). -/
def no1B (p w : List Char) : Bool :=
  (List.range (w.length + 1)).all fun k =>
    (w.drop k).isEmpty ||
      (!(upperL p).isPrefixOf (w.drop k) &&
        (!(w.drop k).isPrefixOf (upperL p) ||
          (match p.get? (w.drop k).length with
           | some c => wordCharB c
           | none => false)))

/-- `no2B p w`: no occurrence of `p` that consumes the non-word character
just before an occurrence of `w` can continue into `w`. -/
def no2B (p w : List Char) : Bool :=
  (List.range p.length).all fun i =>
    match p.get? i with
    | none => true
    | some c =>
      wordCharB c || (p.drop (i + 1)).isEmpty ||
        (!(upperL (p.drop (i + 1))).isPrefixOf w && !w.isPrefixOf (upperL (p.drop (i + 1))))

/-- Boundary preservation at the end of a replacement: if the pattern ends
in a non-word character then so does the replacement. -/
def endOK (p t : List Char) : Bool :=
  match p.getLast? with
  | some c =>
    wordCharB c ||
      (match t.getLast? with
       | some d => !wordCharB d
       | none => false)
  | none => false

/-- Boundary preservation at the start of a replacement. -/
def startOK (p t : List Char) : Bool :=
  match p.head? with
  | some c =>
    wordCharB c ||
      (match t.head? with
       | some d => !wordCharB d
       | none => false)
  | none => false

/-- The side conditions under which one replacement step cannot destroy a
whole-word occurrence of the word `w`. -/
def ruleOKw (w p t : List Char) : Bool :=
  !p.isEmpty && !t.isEmpty && no1B p w && no2B p w && endOK p t && startOK p t

/-- A whole-word, case-insensitive occurrence of the upper-case word `w`
in the text `s` — the meaning of `re.search(r"\bW\b", s.upper())`. -/
def occCI (w s : List Char) : Prop :=
  ∃ l m r, s = l ++ m ++ r ∧ upperL m = w ∧ bLB l = true ∧ bRB r = true

/-- A whole-word occurrence of one of the three destructive keywords. -/
def occDanger (s : List Char) : Prop :=
  occCI ("DROP".toList) s ∨ occCI ("TRUNCATE".toList) s ∨ occCI ("ALTER".toList) s

/-- All replacement lists of the validator's fix stage, with the
case-insensitivity flag each is applied with. -/
def fixStageRules : List (Bool × List Char × List Char) :=
  (dateRules.map fun pr => (false, pr)) ++ (nameRules.map fun pr => (false, pr))
    ++ (ambigRules.map fun pr => (false, pr)) ++ (tableRules.map fun pr => (false, pr))
    ++ (typoRules.map fun pr => (true, pr))

/-- The multiple-statement injection scenario input of the spec. -/
def injScenario : List Char := "SELECT * FROM customers; DROP TABLE customers;".toList

/-- A text containing `update` as a whole word (inside a string literal)
and no `WHERE`, whose `date FROM` fragment the fix stage mangles. -/
def c3q : List Char := "SELECT date, 'update FROM' FROM transactions".toList

/-- A query whose `c.name` reference the validator's fix stage rewrites. -/
def c10q : List Char := "SELECT c.name FROM customers c LIMIT 10".toList

/-- The rewritten form of `c10q` produced by the fix stage. -/
def c10fixed : List Char :=
  "SELECT c.first_name || ' ' || c.last_name FROM customers c LIMIT 10".toList

theorem u32_le_iff (a b : UInt32) : a ≤ b ↔ a.toNat ≤ b.toNat := by
  rw [UInt32.le_def, BitVec.le_def]; rfl

theorem char_eq_iff_toNat (c d : Char) : c = d ↔ c.toNat = d.toNat := by
  constructor
  · intro h; rw [h]
  · intro h
    apply Char.eq_of_val_eq
    apply UInt32.eq_of_toBitVec_eq
    apply BitVec.eq_of_toNat_eq
    exact h

theorem wordCharB_iff (c : Char) :
    wordCharB c = true ↔
      (65 ≤ c.toNat ∧ c.toNat ≤ 90) ∨ (97 ≤ c.toNat ∧ c.toNat ≤ 122) ∨
        (48 ≤ c.toNat ∧ c.toNat ≤ 57) ∨ c.toNat = 95 := by
  have h95 : ('_' : Char).toNat = 95 := by decide
  simp only [wordCharB, Char.isAlphanum, Char.isAlpha, Char.isUpper, Char.isLower,
    Char.isDigit, Bool.or_eq_true, beq_iff_eq, decide_eq_true_eq, Bool.and_eq_true,
    ge_iff_le, u32_le_iff, char_eq_iff_toNat, h95]
  norm_num [Char.toNat]
  tauto

theorem toNat_toUpper_of_lower {c : Char} (h : 97 ≤ c.toNat ∧ c.toNat ≤ 122) :
    (Char.toUpper c).toNat = c.toNat - 32 := by
  unfold Char.toUpper
  rw [if_pos h]
  have hv : (c.toNat - 32).isValidChar := by
    left
    have : c.toNat - 32 < 55296 := by omega
    exact_mod_cast this
  rw [Char.ofNat, dif_pos hv]
  rfl

theorem toUpper_eq_self {c : Char} (h : ¬(97 ≤ c.toNat ∧ c.toNat ≤ 122)) :
    Char.toUpper c = c := by
  unfold Char.toUpper
  rw [if_neg h]

theorem wordCharB_upChar (c : Char) : wordCharB (upChar c) = wordCharB c := by
  by_cases h : 97 ≤ c.toNat ∧ c.toNat ≤ 122
  · have hup := toNat_toUpper_of_lower h
    have h1 : wordCharB (upChar c) = true := by
      rw [wordCharB_iff]; left; rw [upChar, hup]; omega
    have h2 : wordCharB c = true := by
      rw [wordCharB_iff]; right; left; exact h
    rw [h1, h2]
  · rw [upChar, toUpper_eq_self h]

theorem isSpacePy_iff (c : Char) :
    isSpacePy c = true ↔
      c.toNat = 32 ∨ c.toNat = 9 ∨ c.toNat = 10 ∨ c.toNat = 13 ∨
        c.toNat = 11 ∨ c.toNat = 12 := by
  have e1 : (' ' : Char).toNat = 32 := by decide
  have e2 : ('\t' : Char).toNat = 9 := by decide
  have e3 : ('\n' : Char).toNat = 10 := by decide
  have e4 : ('\r' : Char).toNat = 13 := by decide
  have e5 : ('\x0b' : Char).toNat = 11 := by decide
  have e6 : ('\x0c' : Char).toNat = 12 := by decide
  simp only [isSpacePy, Bool.or_eq_true, beq_iff_eq, char_eq_iff_toNat,
    e1, e2, e3, e4, e5, e6]
  tauto

theorem isSpacePy_upChar (c : Char) : isSpacePy (upChar c) = isSpacePy c := by
  by_cases h : 97 ≤ c.toNat ∧ c.toNat ≤ 122
  · have hup := toNat_toUpper_of_lower h
    have h1 : isSpacePy (upChar c) = false := by
      rw [Bool.eq_false_iff]
      intro hc
      rw [isSpacePy_iff] at hc
      rw [upChar, hup] at hc
      omega
    have h2 : isSpacePy c = false := by
      rw [Bool.eq_false_iff]
      intro hc
      rw [isSpacePy_iff] at hc
      omega
    rw [h1, h2]
  · rw [upChar, toUpper_eq_self h]
theorem wordCharB_of_upEq {a b : Char} (h : upChar a = upChar b) :
    wordCharB a = wordCharB b := by
  rw [← wordCharB_upChar a, ← wordCharB_upChar b, h]

theorem upperL_length (s : List Char) : (upperL s).length = s.length :=
  List.length_map ..

theorem upperL_append (a b : List Char) : upperL (a ++ b) = upperL a ++ upperL b :=
  List.map_append ..

theorem upperL_take (n : Nat) (s : List Char) :
    upperL (s.take n) = (upperL s).take n := List.map_take ..

theorem upperL_drop (n : Nat) (s : List Char) :
    upperL (s.drop n) = (upperL s).drop n := List.map_drop ..

theorem replF_zero (ci : Bool) (p t s : List Char) : replF ci p t 0 s = s := rfl

theorem replF_nil (ci : Bool) (p t : List Char) (f : Nat) : replF ci p t f [] = [] := by
  cases f <;> rfl

theorem replF_cons_match {ci : Bool} {p t : List Char} {f : Nat} {c : Char} {s : List Char}
    (h : matchPre ci p (c :: s) = true) :
    replF ci p t (f + 1) (c :: s) = t ++ replF ci p t f ((c :: s).drop p.length) := by
  simp [replF, h]

theorem replF_cons_nomatch {ci : Bool} {p t : List Char} {f : Nat} {c : Char} {s : List Char}
    (h : matchPre ci p (c :: s) = false) :
    replF ci p t (f + 1) (c :: s) = c :: replF ci p t f s := by
  simp [replF, h]

theorem matchPre_upper {ci : Bool} {p s : List Char} (h : matchPre ci p s = true) :
    upperL p <+: upperL s := by
  unfold matchPre at h
  by_cases hci : ci
  · rw [if_pos hci] at h
    exact List.isPrefixOf_iff_prefix.mp h
  · rw [if_neg hci] at h
    exact List.IsPrefix.map upChar (List.isPrefixOf_iff_prefix.mp h)

theorem prefix_append_cases {a b c : List Char} (h : a <+: b ++ c) :
    a <+: b ∨ b <+: a := by
  exact List.prefix_or_prefix_of_prefix h (List.prefix_append b c)

theorem prefix_append_left {a b c : List Char} (h : a <+: b ++ c)
    (hl : a.length ≤ b.length) : a <+: b := by
  rcases prefix_append_cases h with h1 | h1
  · exact h1
  · have : b.length ≤ a.length := h1.length_le
    have : a = b := (List.IsPrefix.eq_of_length_le h1 (by omega)).symm
    exact this ▸ List.prefix_refl b

theorem prefix_append_right {a b c : List Char} (h : a <+: b ++ c)
    (hl : b.length ≤ a.length) : b <+: a := by
  rcases prefix_append_cases h with h1 | h1
  · have : a = b := List.IsPrefix.eq_of_length_le h1 hl
    exact this ▸ List.prefix_refl a
  · exact h1

theorem bLB_nil : bLB [] = true := rfl

theorem bRB_nil : bRB [] = true := rfl

theorem bRB_cons (c : Char) (s : List Char) : bRB (c :: s) = !wordCharB c := rfl

theorem bLB_concat (l : List Char) (c : Char) : bLB (l ++ [c]) = !wordCharB c := by
  simp [bLB, List.getLast?_concat]

theorem bLB_cons_of_ne {l : List Char} (c : Char) (h : l ≠ []) :
    bLB (c :: l) = bLB l := by
  obtain ⟨d, l', rfl⟩ : ∃ d l', l = d :: l' := by
    cases l with
    | nil => exact absurd rfl h
    | cons d l' => exact ⟨d, l', rfl⟩
  simp [bLB, List.getLast?_cons_cons]

theorem no1B_spec {p w : List Char} (h : no1B p w = true) {k : Nat} (hk : k < w.length) :
    ¬(upperL p <+: w.drop k) ∧
      ((w.drop k) <+: upperL p →
        ∃ c, p.get? (w.drop k).length = some c ∧ wordCharB c = true) := by
  rw [no1B, List.all_eq_true] at h
  have hx := h k (List.mem_range.mpr (by omega))
  have hne : (w.drop k).isEmpty = false := by
    cases hd : w.drop k with
    | nil =>
      have hlen : (w.drop k).length = w.length - k := by simp
      rw [hd] at hlen
      simp at hlen
      omega
    | cons a l => rfl
  rw [hne, Bool.false_or, Bool.and_eq_true] at hx
  obtain ⟨hx1, hx2⟩ := hx
  constructor
  · intro hp
    rw [← List.isPrefixOf_iff_prefix] at hp
    rw [hp] at hx1
    exact Bool.noConfusion hx1
  · intro hp
    rw [← List.isPrefixOf_iff_prefix] at hp
    rw [hp, Bool.not_true, Bool.false_or] at hx2
    split at hx2
    · next c hg => exact ⟨c, hg, hx2⟩
    · next hg => exact Bool.noConfusion hx2

theorem no2B_spec {p w : List Char} (h : no2B p w = true) {i : Nat} (hi : i < p.length)
    {c : Char} (hc : p.get? i = some c) (hw : wordCharB c = false)
    (hne : p.drop (i + 1) ≠ []) :
    ¬(upperL (p.drop (i + 1)) <+: w) ∧ ¬(w <+: upperL (p.drop (i + 1))) := by
  rw [no2B, List.all_eq_true] at h
  have hx := h i (List.mem_range.mpr hi)
  rw [hc] at hx
  have hx' : (wordCharB c || (p.drop (i + 1)).isEmpty ||
      (!(upperL (p.drop (i + 1))).isPrefixOf w
        && !w.isPrefixOf (upperL (p.drop (i + 1))))) = true := hx
  have hne2 : (p.drop (i + 1)).isEmpty = false := by
    cases hd : p.drop (i + 1) with
    | nil => exact absurd hd hne
    | cons a l => rfl
  rw [hw, hne2, Bool.or_self, Bool.false_or, Bool.and_eq_true] at hx'
  obtain ⟨hx1, hx2⟩ := hx' 
  constructor
  · intro hp
    rw [← List.isPrefixOf_iff_prefix] at hp
    rw [hp] at hx1
    exact Bool.noConfusion hx1
  · intro hp
    rw [← List.isPrefixOf_iff_prefix] at hp
    rw [hp] at hx2
    exact Bool.noConfusion hx2

theorem prefix_getq_eq {a s : List Char} (h : a <+: s) {i : Nat} (hi : i < a.length) :
    s.get? i = a.get? i := by
  obtain ⟨c, rfl⟩ := h
  exact List.get?_append hi

theorem no_match_in_word (ci : Bool) (p w : List Char)
    (h1 : no1B p w = true) :
    ∀ (m2 r : List Char) (k : Nat), m2 ≠ [] → k < w.length →
      upperL m2 = w.drop k → bRB r = true →
      matchPre ci p (m2 ++ r) = false := by
  intro m2 r k hm2 hk hup hbr
  by_contra hmt
  rw [Bool.not_eq_false] at hmt
  have hpre : upperL p <+: (w.drop k) ++ upperL r := by
    have := matchPre_upper hmt
    rwa [upperL_append, hup] at this
  rcases Nat.lt_or_ge (w.drop k).length (upperL p).length with hlt | hge
  · have hwp : (w.drop k) <+: upperL p := prefix_append_right hpre (by omega)
    obtain ⟨c, hc, hcw⟩ := (no1B_spec h1 hk).2 hwp
    have hidx : (upperL p).get? (w.drop k).length = some (upChar c) := by
      rw [upperL, List.get?_map, hc]
      rfl
    have hs : ((w.drop k) ++ upperL r).get? (w.drop k).length = some (upChar c) := by
      rw [prefix_getq_eq hpre hlt, hidx]
    rw [List.get?_append_right (Nat.le_refl _), Nat.sub_self] at hs
    cases r with
    | nil => simp [upperL] at hs
    | cons rh r' =>
      have hre : upChar rh = upChar c := by
        rw [upperL] at hs
        rw [List.get?_map] at hs
        simp at hs
        exact hs
      have hwr : wordCharB rh = true := by rw [wordCharB_of_upEq hre, hcw]
      rw [bRB_cons, hwr] at hbr
      exact Bool.noConfusion hbr
  · exact (no1B_spec h1 hk).1 (prefix_append_left hpre (by omega))

theorem replF_skip_word (ci : Bool) (p t w : List Char)
    (h1 : no1B p w = true) :
    ∀ (m2 : List Char) (f : Nat) (r : List Char) (k : Nat),
      (m2 ++ r).length ≤ f → m2 ≠ [] → k < w.length → upperL m2 = w.drop k →
      bRB r = true →
      replF ci p t f (m2 ++ r) = m2 ++ replF ci p t (f - m2.length) r := by
  intro m2
  induction m2 with
  | nil => intro f r k _ hm2 _ _ _; exact absurd rfl hm2
  | cons c m2' ih =>
    intro f r k hf hm2 hk hup hbr
    cases f with
    | zero => simp at hf
    | succ f' =>
      have hnm : matchPre ci p ((c :: m2') ++ r) = false :=
        no_match_in_word ci p w h1 (c :: m2') r k (by simp) hk hup hbr
      rw [List.cons_append] at hnm ⊢
      rw [replF_cons_nomatch hnm]
      cases hm2e : m2' with
      | nil =>
        subst hm2e
        simp
      | cons d m2'' =>
        have hm2ne : m2' ≠ [] := by rw [hm2e]; simp
        rw [← hm2e]
        have hlendk : (w.drop k).length = w.length - k := by simp
        have hupc : w.drop k = upChar c :: upperL m2' := by
          rw [← hup]; rfl
        have hlm2 : (upperL m2').length = m2'.length := upperL_length m2'
        have hk1 : k + 1 < w.length := by
          have : (w.drop k).length = 1 + (upperL m2').length := by
            rw [hupc]; simp; omega
          rw [hlendk] at this
          rw [hlm2] at this
          have : m2'.length ≥ 1 := by
            rw [hm2e]; simp
          omega
        have hup1 : upperL m2' = w.drop (k + 1) := by
          have : w.drop (k + 1) = (w.drop k).drop 1 := by
            rw [List.drop_drop]
          rw [this, hupc]
          rfl
        have hf' : (m2' ++ r).length ≤ f' := by
          simp at hf ⊢
          omega
        rw [ih f' r (k + 1) hf' hm2ne hk1 hup1 hbr]
        simp [Nat.succ_sub_succ]

theorem replF_bRB (ci : Bool) (p t : List Char) (hS : startOK p t = true) :
    ∀ (f : Nat) (r : List Char), bRB r = true → bRB (replF ci p t f r) = true := by
  intro f r hbr
  cases f with
  | zero => exact hbr
  | succ f' =>
    cases r with
    | nil => rw [replF_nil]; rfl
    | cons c r' =>
      by_cases hm : matchPre ci p (c :: r') = true
      · rw [replF_cons_match hm]
        obtain ⟨ph, p', rfl⟩ : ∃ ph p', p = ph :: p' := by
          cases p with
          | nil => exact Bool.noConfusion hS
          | cons ph p' => exact ⟨ph, p', rfl⟩
        have hpre := matchPre_upper hm
        have hheads : upChar ph = upChar c := by
          have h0 := prefix_getq_eq hpre (i := 0) (by simp [upperL])
          simp [upperL] at h0
          exact h0.symm
        have hphw : wordCharB ph = false := by
          rw [wordCharB_of_upEq hheads]
          rw [bRB_cons] at hbr
          exact Bool.not_eq_true' .. |>.mp hbr
        have hS' : (wordCharB ph ||
            (match t.head? with
             | some d => !wordCharB d
             | none => false)) = true := hS
        rw [hphw, Bool.false_or] at hS'
        cases t with
        | nil => exact Bool.noConfusion hS'
        | cons d t' =>
          have hd : wordCharB d = false := by
            have : (!wordCharB d) = true := hS'
            exact Bool.not_eq_true' .. |>.mp this
          rw [List.cons_append, bRB_cons, hd]
          rfl
      · rw [Bool.not_eq_true] at hm
        rw [replF_cons_nomatch hm, bRB_cons]
        rw [bRB_cons] at hbr
        exact hbr

theorem ruleOKw_parts {w p t : List Char} (h : ruleOKw w p t = true) :
    p ≠ [] ∧ t ≠ [] ∧ no1B p w = true ∧ no2B p w = true ∧ endOK p t = true
      ∧ startOK p t = true := by
  rw [ruleOKw] at h
  simp only [Bool.and_eq_true, Bool.not_eq_true'] at h
  obtain ⟨⟨⟨⟨⟨hp, ht⟩, h1⟩, h2⟩, hE⟩, hS⟩ := h
  refine ⟨?_, ?_, h1, h2, hE, hS⟩
  · intro hpe; rw [hpe] at hp; exact Bool.noConfusion hp
  · intro hte; rw [hte] at ht; exact Bool.noConfusion ht

theorem bLB_append_right {a b : List Char} (h : b ≠ []) : bLB (a ++ b) = bLB b := by
  cases hgb : b.getLast? with
  | none => exact absurd (List.getLast?_eq_none_iff.mp hgb) h
  | some x =>
    simp only [bLB, List.getLast?_append, hgb, Option.or_some]

theorem replF_keep (ci : Bool) (p t w : List Char)
    (hok : ruleOKw w p t = true) :
    ∀ (f : Nat) (s l m r : List Char), s.length ≤ f → s = (l ++ m) ++ r →
      upperL m = w → m ≠ [] → bLB l = true → bRB r = true →
      ∃ l2 r2, replF ci p t f s = (l2 ++ m) ++ r2 ∧ bLB l2 = true ∧ bRB r2 = true ∧
        (l2 = [] ↔ l = []) := by
  obtain ⟨hp, ht, h1, h2, hE, hS⟩ := ruleOKw_parts hok
  intro f
  induction f with
  | zero =>
    intro s l m r hlen heq _ hm _ _
    subst heq
    exfalso
    rw [Nat.le_zero] at hlen
    have hz := List.eq_nil_of_length_eq_zero hlen
    have hlm := (List.append_eq_nil.mp hz).1
    exact hm (List.append_eq_nil.mp hlm).2
  | succ f ih =>
    intro s l m r hlen heq hup hm hbl hbr
    subst heq
    by_cases hl : l = []
    · subst hl
      have hwlen : 0 < w.length := by
        rw [← hup, upperL_length]
        cases m with
        | nil => exact absurd rfl hm
        | cons a b => simp
      have hup0 : upperL m = w.drop 0 := by rw [hup]; rfl
      have hsw := replF_skip_word ci p t w h1 m (f + 1) r 0
        (by simpa using hlen) hm hwlen hup0 hbr
      refine ⟨[], replF ci p t (f + 1 - m.length) r, ?_, rfl,
        replF_bRB ci p t hS _ r hbr, by simp⟩
      simp only [List.nil_append] at hsw ⊢
      exact hsw
    · obtain ⟨cl, l', rfl⟩ : ∃ cl l', l = cl :: l' := by
        cases l with
        | nil => exact absurd rfl hl
        | cons cl l' => exact ⟨cl, l', rfl⟩
      have hshape : ((cl :: l') ++ m) ++ r = cl :: ((l' ++ m) ++ r) := by simp
      rcases List.eq_nil_or_concat (cl :: l') with hno | ⟨L1, cL, hLc⟩
      · simp at hno
      have hcLw : wordCharB cL = false := by
        rw [hLc, List.concat_eq_append, bLB_concat] at hbl
        exact Bool.not_eq_true' .. |>.mp hbl
      rw [List.concat_eq_append] at hLc
      by_cases hmt : matchPre ci p (((cl :: l') ++ m) ++ r) = true
      · rcases Nat.lt_or_ge ((cl :: l').length) p.length with hlt | hge
        · -- the pattern would overlap the word: impossible
          exfalso
          have hpre := matchPre_upper hmt
          have hi : L1.length < p.length := by
            rw [hLc] at hlt
            simp at hlt
            omega
          have hsu : upperL (((cl :: l') ++ m) ++ r)
              = ((upperL L1 ++ [upChar cL]) ++ upperL m) ++ upperL r := by
            rw [hLc, upperL_append, upperL_append, upperL_append]
            rfl
          rw [hsu] at hpre
          have hgetS : (((upperL L1 ++ [upChar cL]) ++ upperL m) ++ upperL r).get? L1.length
              = some (upChar cL) := by
            rw [List.get?_append (by simp [upperL_length]; try omega),
              List.get?_append (by simp [upperL_length]),
              List.get?_append_right (by simp [upperL_length]),
              upperL_length]
            simp
          have hgetP : (upperL p).get? L1.length = some (upChar cL) := by
            rw [← prefix_getq_eq hpre (by rw [upperL_length]; omega)]
            exact hgetS
          obtain ⟨cp, hcp, hcpu⟩ : ∃ cp, p.get? L1.length = some cp
              ∧ upChar cp = upChar cL := by
            rw [upperL, List.get?_map] at hgetP
            cases hg : p.get? L1.length with
            | none => rw [hg] at hgetP; exact Option.noConfusion hgetP
            | some cp =>
              rw [hg] at hgetP
              exact ⟨cp, rfl, Option.some.inj hgetP⟩
          have hcpw : wordCharB cp = false := by
            rw [wordCharB_of_upEq hcpu]; exact hcLw
          have hL1len : L1.length + 1 = (cl :: l').length := by
            rw [hLc]; simp
          have hpne : p.drop (L1.length + 1) ≠ [] := by
            intro hdn
            have := List.length_drop (L1.length + 1) p
            rw [hdn] at this
            simp at this
            omega
          have hlenL : ((upperL L1 ++ [upChar cL])).length = L1.length + 1 := by
            simp [upperL_length]
          have hp2pre : upperL (p.drop (L1.length + 1)) <+: w ++ upperL r := by
            have hdp : (upperL p).drop (L1.length + 1)
                <+: (((upperL L1 ++ [upChar cL]) ++ upperL m) ++ upperL r).drop
                  (L1.length + 1) := List.IsPrefix.drop hpre (L1.length + 1)
            have hdrop : (((upperL L1 ++ [upChar cL]) ++ upperL m) ++ upperL r).drop
                (L1.length + 1) = upperL m ++ upperL r := by
              rw [List.append_assoc (upperL L1 ++ [upChar cL])]
              rw [List.drop_append_eq_append_drop, hlenL]
              rw [Nat.sub_self, List.drop_zero]
              rw [List.drop_eq_nil_of_le (by rw [hlenL])]
              rw [List.nil_append]
            rw [hdrop] at hdp
            rw [upperL_drop, ← hup]
            exact hdp
          have hspec := no2B_spec h2 (by omega) hcp hcpw hpne
          rcases prefix_append_cases hp2pre with hc1 | hc2
          · exact hspec.1 hc1
          · exact hspec.2 hc2
        · -- the pattern is consumed inside `l`
          rw [hshape] at hmt
          rw [hshape, replF_cons_match hmt, ← hshape]
          have hdrop : (((cl :: l') ++ m) ++ r).drop p.length
              = (((cl :: l').drop p.length ++ m) ++ r) := by
            rw [List.append_assoc, List.drop_append_eq_append_drop,
              Nat.sub_eq_zero_of_le hge]
            simp [List.append_assoc]
          have hbl' : bLB ((cl :: l').drop p.length) = true := by
            cases hde : (cl :: l').drop p.length with
            | nil => rfl
            | cons x xs =>
              rw [← hde]
              have hdne : (cl :: l').drop p.length ≠ [] := by rw [hde]; simp
              have : (cl :: l') = (cl :: l').take p.length ++ (cl :: l').drop p.length :=
                (List.take_append_drop ..).symm
              rw [this] at hbl
              rw [bLB_append_right hdne] at hbl
              exact hbl
          obtain ⟨l2', r2', e, b1, b2, hiff⟩ :=
            ih (((cl :: l').drop p.length ++ m) ++ r) ((cl :: l').drop p.length) m r
              (by
                have hp1 : 0 < p.length := List.length_pos.mpr hp
                simp at hlen ⊢
                omega) rfl hup hm hbl' hbr
          rw [hdrop, e]
          refine ⟨t ++ l2', r2', by simp, ?_, b2, ?_⟩
          · by_cases hl2e : l2' = []
            · have hldrop : (cl :: l').drop p.length = [] := hiff.mp hl2e
              have hplen : p.length = (cl :: l').length := by
                have hld := List.length_drop p.length (cl :: l')
                rw [hldrop] at hld
                simp only [List.length_nil, List.length_cons] at hld hge ⊢
                omega
              -- p and l are CI-equal, so p ends in a non-word character
              have hpeq : upperL p = upperL (cl :: l') := by
                have hpre2 := matchPre_upper hmt
                rw [← hshape] at hpre2
                have hlpre : upperL (cl :: l') <+: upperL (((cl :: l') ++ m) ++ r) := by
                  rw [upperL_append, upperL_append, List.append_assoc]
                  exact List.prefix_append ..
                rcases List.prefix_or_prefix_of_prefix hpre2 hlpre with hx | hx
                · exact List.IsPrefix.eq_of_length hx (by rw [upperL_length, upperL_length]; omega)
                · exact (List.IsPrefix.eq_of_length hx
                    (by rw [upperL_length, upperL_length]; omega)).symm
              obtain ⟨cp', hgp⟩ : ∃ cp', p.getLast? = some cp' := by
                cases hg : p.getLast? with
                | none => exact absurd (List.getLast?_eq_none_iff.mp hg) hp
                | some c => exact ⟨c, rfl⟩
              have hup2 : upChar cp' = upChar cL := by
                have h3 : (upperL p).getLast? = (upperL (cl :: l')).getLast? := by
                  rw [hpeq]
                rw [upperL, upperL, List.getLast?_map, List.getLast?_map, hgp, hLc] at h3
                rw [List.getLast?_concat] at h3
                exact Option.some.inj h3
              have hcp'w : wordCharB cp' = false := by
                rw [wordCharB_of_upEq hup2]; exact hcLw
              have hE2 : (match p.getLast? with
                  | some c => wordCharB c ||
                      (match t.getLast? with
                       | some d => !wordCharB d
                       | none => false)
                  | none => false) = true := hE
              simp only [hgp] at hE2
              rw [hcp'w, Bool.false_or] at hE2
              obtain ⟨d, hgt⟩ : ∃ d, t.getLast? = some d := by
                cases hg : t.getLast? with
                | none => exact absurd (List.getLast?_eq_none_iff.mp hg) ht
                | some c => exact ⟨c, rfl⟩
              simp only [hgt] at hE2
              rw [hl2e]
              simp only [List.append_nil]
              simp only [bLB, hgt]
              exact hE2
            · rw [bLB_append_right hl2e]
              exact b1
          · constructor
            · intro hte
              exact absurd (List.append_eq_nil.mp hte).1 ht
            · intro hle
              exact absurd hle (by simp)
      · rw [Bool.not_eq_true] at hmt
        rw [hshape] at hmt
        rw [hshape, replF_cons_nomatch hmt]
        have hbl' : bLB l' = true := by
          cases hl'e : l' with
          | nil => rfl
          | cons d l'' =>
            rw [← hl'e, ← bLB_cons_of_ne cl (by rw [hl'e]; simp)]
            exact hbl
        obtain ⟨l2', r2', e, b1, b2, hiff⟩ :=
          ih ((l' ++ m) ++ r) l' m r (by simp at hlen ⊢; omega) rfl hup hm hbl' hbr
        rw [e]
        refine ⟨cl :: l2', r2', by simp, ?_, b2, by simp⟩
        by_cases hl2e : l2' = []
        · have hl'n : l' = [] := hiff.mp hl2e
          subst hl'n
          rw [hl2e]
          exact hbl
        · rw [bLB_cons_of_ne cl hl2e]
          exact b1

theorem repl_keepOcc (ci : Bool) (p t w s : List Char) (hwne : w ≠ [])
    (hok : ruleOKw w p t = true) (hocc : occCI w s) : occCI w (repl ci p t s) := by
  obtain ⟨l, m, r, heq, hup, hbl, hbr⟩ := hocc
  have hm : m ≠ [] := by
    intro hme
    rw [hme] at hup
    exact hwne hup.symm
  obtain ⟨l2, r2, e, b1, b2, _⟩ :=
    replF_keep ci p t w hok s.length s l m r (Nat.le_refl _) heq hup hm hbl hbr
  exact ⟨l2, m, r2, e, hup, b1, b2⟩

theorem foldl_keepOcc {α : Type} (w : List Char) (step : List Char → α → List Char) :
    ∀ (rules : List α), (∀ x ∈ rules, ∀ s, occCI w s → occCI w (step s x)) →
      ∀ s, occCI w s → occCI w (rules.foldl step s) := by
  intro rules
  induction rules with
  | nil => intro _ s h; exact h
  | cons a as ih =>
    intro hstep s h
    rw [List.foldl_cons]
    exact ih (fun x hx s' h' => hstep x (List.mem_cons_of_mem a hx) s' h')
      (step s a) (hstep a (List.mem_cons_self ..) s h)

theorem ite_keepOcc (w : List Char) (c : Bool) (f : List Char → List Char)
    (s : List Char) (hf : occCI w s → occCI w (f s)) (h : occCI w s) :
    occCI w (if c then f s else s) := by
  by_cases hc : c = true
  · rw [if_pos hc]; exact hf h
  · rw [if_neg hc]; exact h

theorem fixDate_keepOcc (w : List Char) (hwne : w ≠ [])
    (hd : ∀ pr ∈ dateRules, ruleOKw w pr.1 pr.2 = true)
    (s : List Char) (h : occCI w s) : occCI w (fixDate s) := by
  unfold fixDate
  exact ite_keepOcc w _ _ s
    (foldl_keepOcc w _ dateRules
      (fun pr hpr s' h' => repl_keepOcc false pr.1 pr.2 w s' hwne (hd pr hpr) h') s) h

theorem fixName_keepOcc (w : List Char) (hwne : w ≠ [])
    (hn : ∀ pr ∈ nameRules, ruleOKw w pr.1 pr.2 = true)
    (s : List Char) (h : occCI w s) : occCI w (fixName s) := by
  unfold fixName
  exact ite_keepOcc w _ _ s
    (foldl_keepOcc w _ nameRules
      (fun pr hpr s' h' => repl_keepOcc false pr.1 pr.2 w s' hwne (hn pr hpr) h') s) h

theorem fixAmbig_keepOcc (w : List Char) (hwne : w ≠ [])
    (ha : ∀ pr ∈ ambigRules, ruleOKw w pr.1 pr.2 = true)
    (s : List Char) (h : occCI w s) : occCI w (fixAmbig s) := by
  unfold fixAmbig
  by_cases hc : (subB (" JOIN ".toList) (upperL s) || subB (" FROM ".toList) (upperL s)) = true
  · rw [if_pos hc]
    refine foldl_keepOcc w _ ambigRules ?_ s h
    intro pr hpr s' h'
    by_cases hc2 : (subB pr.1 s' && !(ambigForbidden.contains (normalizeP pr.1))) = true
    · rw [if_pos hc2]
      exact repl_keepOcc false pr.1 pr.2 w s' hwne (ha pr hpr) h'
    · rw [if_neg hc2]
      exact h'
  · rw [if_neg hc]
    exact h

theorem fixTable_keepOcc (w : List Char) (hwne : w ≠ [])
    (htb : ∀ pr ∈ tableRules, ruleOKw w pr.1 pr.2 = true)
    (s : List Char) (h : occCI w s) : occCI w (fixTable s) := by
  unfold fixTable
  refine foldl_keepOcc w _ tableRules ?_ s h
  intro pr hpr s' h'
  by_cases hc2 : subB pr.1 s' = true
  · rw [if_pos hc2]
    exact repl_keepOcc false pr.1 pr.2 w s' hwne (htb pr hpr) h'
  · rw [if_neg hc2]
    exact h'

theorem fixTypo_keepOcc (w : List Char) (hwne : w ≠ [])
    (hty : ∀ pr ∈ typoRules, ruleOKw w pr.1 pr.2 = true)
    (s : List Char) (h : occCI w s) : occCI w (fixTypo s) := by
  unfold fixTypo
  refine foldl_keepOcc w _ typoRules ?_ s h
  intro pr hpr s' h'
  by_cases hc2 : subB pr.1 (lowerL s') = true
  · rw [if_pos hc2]
    exact repl_keepOcc true pr.1 pr.2 w s' hwne (hty pr hpr) h'
  · rw [if_neg hc2]
    exact h'

theorem fixStage_keepOcc (w : List Char) (hwne : w ≠ [])
    (hd : ∀ pr ∈ dateRules, ruleOKw w pr.1 pr.2 = true)
    (hn : ∀ pr ∈ nameRules, ruleOKw w pr.1 pr.2 = true)
    (ha : ∀ pr ∈ ambigRules, ruleOKw w pr.1 pr.2 = true)
    (htb : ∀ pr ∈ tableRules, ruleOKw w pr.1 pr.2 = true)
    (hty : ∀ pr ∈ typoRules, ruleOKw w pr.1 pr.2 = true)
    (q : List Char) (h : occCI w q) : occCI w (fixStage q) := by
  unfold fixStage
  exact fixTypo_keepOcc w hwne hty _
    (fixTable_keepOcc w hwne htb _
      (fixAmbig_keepOcc w hwne ha _
        (fixName_keepOcc w hwne hn _ (fixDate_keepOcc w hwne hd _ h))))

theorem occ_containsWordB (w : List Char) :
    ∀ (l : List Char) (prev : Option Char) (s m r : List Char),
      s = (l ++ m) ++ r → upperL m = w → m ≠ [] → bLB l = true → bRB r = true →
      (l = [] → bOK prev = true) →
      containsWordB w prev s = true := by
  intro l
  induction l with
  | nil =>
    intro prev s m r heq hup hm _ hbr hprev
    subst heq
    obtain ⟨cm, m', rfl⟩ : ∃ cm m', m = cm :: m' := by
      cases m with
      | nil => exact absurd rfl hm
      | cons cm m' => exact ⟨cm, m', rfl⟩
    have hwlen : w.length = (cm :: m').length := by
      rw [← hup, upperL_length]
    have hstep : containsWordB w prev (([] ++ (cm :: m')) ++ r)
        = ((bOK prev && (upperL (((cm :: m') ++ r).take w.length) == w)
            && bRB (((cm :: m') ++ r).drop w.length))
          || containsWordB w (some cm) (m' ++ r)) := rfl
    rw [hstep]
    have htake : ((cm :: m') ++ r).take w.length = cm :: m' := by
      rw [hwlen]
      exact List.take_left ..
    have hdrop : ((cm :: m') ++ r).drop w.length = r := by
      rw [hwlen]
      exact List.drop_left ..
    rw [htake, hdrop, hprev rfl, hbr, hup]
    simp
  | cons cl l' ih =>
    intro prev s m r heq hup hm hbl hbr _
    subst heq
    have hbl' : bLB l' = true := by
      by_cases hl'e : l' = []
      · rw [hl'e]; rfl
      · rw [← bLB_cons_of_ne cl hl'e]
        exact hbl
    have hprev' : l' = [] → bOK (some cl) = true := by
      intro hl'e
      subst hl'e
      exact hbl
    have hstep : containsWordB w prev (((cl :: l') ++ m) ++ r)
        = ((bOK prev && (upperL ((((cl :: l') ++ m) ++ r).take w.length) == w)
            && bRB ((((cl :: l') ++ m) ++ r).drop w.length))
          || containsWordB w (some cl) ((l' ++ m) ++ r)) := rfl
    rw [hstep, ih (some cl) ((l' ++ m) ++ r) m r rfl hup hm hbl' hbr hprev']
    simp

theorem hasWord_of_occ {w s : List Char} (hw : w ≠ []) (h : occCI w s) :
    hasWord w s = true := by
  obtain ⟨l, m, r, heq, hup, hbl, hbr⟩ := h
  have hmne : m ≠ [] := by
    intro hme
    rw [hme] at hup
    exact hw hup.symm
  exact occ_containsWordB w l none s m r heq hup hmne hbl hbr (fun _ => rfl)

theorem check_safety_fst_false_of_danger (level sql : List Char)
    (h : (hasWord ("DROP".toList) sql || hasWord ("TRUNCATE".toList) sql
      || hasWord ("ALTER".toList) sql) = true) :
    (check_safety level sql).1 = false := by
  unfold check_safety
  dsimp only
  rw [h]
  by_cases hops : (!((if lowerL level == "strict".toList then strictOps
      else if lowerL level == "moderate".toList then moderateOps
      else lenientOps).any fun op => op.isPrefixOf (upperL sql))) = true
  · rw [if_pos hops]
  · rw [if_neg hops, if_pos rfl]

theorem validate_query_safe_of_unsafe (level : List Char)
    (parse : List Char → Option (List Char))
    (schema : List (List Char × List (List Char))) (q : List Char)
    (h : (check_safety level (fixStage q)).1 = false) :
    (validate_query level parse schema q).safe = false := by
  unfold validate_query
  dsimp only
  rw [h]
  rfl

theorem fixStage_keepDanger (q : List Char) (h : occDanger q) :
    occDanger (fixStage q) := by
  rcases h with h | h | h
  · exact Or.inl (fixStage_keepOcc ("DROP".toList) (by decide) (by decide) (by decide)
      (by decide) (by decide) (by decide) q h)
  · exact Or.inr (Or.inl (fixStage_keepOcc ("TRUNCATE".toList) (by decide) (by decide)
      (by decide) (by decide) (by decide) (by decide) q h))
  · exact Or.inr (Or.inr (fixStage_keepOcc ("ALTER".toList) (by decide) (by decide)
      (by decide) (by decide) (by decide) (by decide) q h))

theorem hasDanger_of_occ {s : List Char} (h : occDanger s) :
    (hasWord ("DROP".toList) s || hasWord ("TRUNCATE".toList) s
      || hasWord ("ALTER".toList) s) = true := by
  rcases h with h | h | h
  · rw [hasWord_of_occ (by decide) h]
    simp
  · rw [hasWord_of_occ (by decide) h]
    simp
  · rw [hasWord_of_occ (by decide) h]
    simp

/-- **C2.**  For every query text containing `DROP`, `TRUNCATE` or `ALTER`
as a whole word (case-insensitively, anywhere), `validate_query` returns
`safe = false`, for every validation level and every behaviour of the
external syntax probe and schema catalog. -/
theorem C2_destructive_keyword_always_rejected
    (level : List Char) (parse : List Char → Option (List Char))
    (schema : List (List Char × List (List Char))) (q : List Char)
    (h : occDanger q) :
    (validate_query level parse schema q).safe = false := by
  apply validate_query_safe_of_unsafe
  apply check_safety_fst_false_of_danger
  exact hasDanger_of_occ (fixStage_keepDanger q h)

/-- Witness for C2 at a concrete destructive query, at the most permissive
level. -/
theorem C2_destructive_keyword_always_rejected_witness :
    (validate_query ("lenient".toList) (fun _ => none) bankingSchema
      ("DROP TABLE customers".toList)).safe = false := by
  apply C2_destructive_keyword_always_rejected
  left
  exact ⟨[], ("DROP".toList), (" TABLE customers".toList), rfl, by decide, rfl, by decide⟩

theorem check_safety_fst_false_of_delup (level sql : List Char)
    (h : ((hasWord ("DELETE".toList) sql || hasWord ("UPDATE".toList) sql)
      && !subB ("WHERE".toList) (upperL sql)) = true) :
    (check_safety level sql).1 = false := by
  unfold check_safety
  dsimp only
  rw [h]
  by_cases hops : (!((if lowerL level == "strict".toList then strictOps
      else if lowerL level == "moderate".toList then moderateOps
      else lenientOps).any fun op => op.isPrefixOf (upperL sql))) = true
  · rw [if_pos hops]
  · rw [if_neg hops]
    by_cases hdang : (hasWord ("DROP".toList) sql || hasWord ("TRUNCATE".toList) sql
        || hasWord ("ALTER".toList) sql) = true
    · rw [if_pos hdang]
    · rw [if_neg hdang, if_pos rfl]

/-- **C1 (amended).**  For the input
`"SELECT * FROM customers; DROP TABLE customers;"`, `validate_query`
returns `safe = false` (with `valid = false`) at every strictness level and
under every behaviour of the external oracles — but with the
destructive-operation message: the `DROP`/`TRUNCATE`/`ALTER` check of
`check_safety` fires before the injection heuristics are reached. -/
theorem C1_multi_statement_drop_rejected (level : List Char)
    (parse : List Char → Option (List Char))
    (schema : List (List Char × List (List Char))) :
    validate_query level parse schema injScenario
      = { safe := false, valid := false,
          message := "Dangerous operation detected (DROP/TRUNCATE/ALTER not allowed).".toList } := by
  have hfix : fixStage injScenario = injScenario := by decide
  have hcs : check_safety level injScenario
      = (false, "Dangerous operation detected (DROP/TRUNCATE/ALTER not allowed).".toList) := by
    unfold check_safety
    dsimp only
    have hdang : (hasWord ("DROP".toList) injScenario
        || hasWord ("TRUNCATE".toList) injScenario
        || hasWord ("ALTER".toList) injScenario) = true := by decide
    rw [hdang]
    by_cases h1 : (lowerL level == "strict".toList) = true
    · rw [if_pos h1]
      have hops : (strictOps.any fun op => op.isPrefixOf (upperL injScenario)) = true := by
        decide
      rw [hops]
      rfl
    · rw [if_neg h1]
      by_cases h2 : (lowerL level == "moderate".toList) = true
      · rw [if_pos h2]
        have hops : (moderateOps.any fun op => op.isPrefixOf (upperL injScenario)) = true := by
          decide
        rw [hops]
        rfl
      · rw [if_neg h2]
        have hops : (lenientOps.any fun op => op.isPrefixOf (upperL injScenario)) = true := by
          decide
        rw [hops]
        rfl
  unfold validate_query
  dsimp only
  rw [hfix, hcs]
  rfl

/-- **C1 counterexample.**  At the scenario input the validator's message
is the destructive-operation message, which is none of the three injection
messages: the claim that an injection message is returned is false. -/
theorem C1_counterexample_message_not_injection :
    ((validate_query ("strict".toList) (fun _ => none) bankingSchema injScenario).message
        = "Dangerous operation detected (DROP/TRUNCATE/ALTER not allowed).".toList)
    ∧ ((validate_query ("strict".toList) (fun _ => none) bankingSchema injScenario).message
        ≠ "Possible SQL injection attempt detected (multiple statements).".toList)
    ∧ ((validate_query ("strict".toList) (fun _ => none) bankingSchema injScenario).message
        ≠ "Possible SQL injection attempt detected (comment injection).".toList)
    ∧ ((validate_query ("strict".toList) (fun _ => none) bankingSchema injScenario).message
        ≠ "Possible SQL injection attempt detected (UNION injection).".toList) := by
  refine ⟨by decide, by decide, by decide, by decide⟩

/-- **C3 counterexample.**  `c3q` contains `update` as a whole word
(case-insensitively) and no `WHERE`, yet the full validator accepts it:
the fix stage first rewrites `date, ...` and the `date FROM` inside the
string literal, destroying the `update` word before `check_safety` runs. -/
theorem C3_counterexample_update_no_where_accepted :
    (occCI ("UPDATE".toList) c3q ∧ subB ("WHERE".toList) (upperL c3q) = false)
    ∧ (validate_query ("strict".toList) (fun _ => none) bankingSchema c3q).safe = true := by
  refine ⟨⟨⟨("SELECT date, '".toList), ("update".toList),
    (" FROM' FROM transactions".toList), by decide, by decide, by decide, by decide⟩,
    by decide⟩, by decide⟩

/-- **C3 (amended).**  For every text that the fix stage leaves unchanged
and that contains `UPDATE` or `DELETE` as a whole word but no `WHERE`,
`validate_query` returns `safe = false` at every level. -/
theorem C3_update_delete_without_where_rejected (level : List Char)
    (parse : List Char → Option (List Char))
    (schema : List (List Char × List (List Char))) (q : List Char)
    (hfix : fixStage q = q)
    (h : occCI ("DELETE".toList) q ∨ occCI ("UPDATE".toList) q)
    (hw : subB ("WHERE".toList) (upperL q) = false) :
    (validate_query level parse schema q).safe = false := by
  apply validate_query_safe_of_unsafe
  rw [hfix]
  apply check_safety_fst_false_of_delup
  have hdu : (hasWord ("DELETE".toList) q || hasWord ("UPDATE".toList) q) = true := by
    rcases h with h | h
    · rw [hasWord_of_occ (by decide) h]
      simp
    · rw [hasWord_of_occ (by decide) h]
      simp
  rw [hdu, hw]
  rfl

/-- Witness for the amended C3 at a concrete unguarded DELETE. -/
theorem C3_update_delete_without_where_rejected_witness :
    (validate_query ("lenient".toList) (fun _ => none) bankingSchema
      ("DELETE FROM transactions".toList)).safe = false := by
  apply C3_update_delete_without_where_rejected
  · decide
  · exact Or.inl ⟨[], ("DELETE".toList), (" FROM transactions".toList),
      rfl, by decide, rfl, by decide⟩
  · decide

/-- **C10.**  The validator itself rewrites the query before checking it:
for `c10q` it returns a passing result whose `sql` field is the rewritten
`c10fixed ≠ c10q`, and the caller (`app.process_query`) then executes that
rewritten text, so validation is not a pure check of its input string. -/
theorem C10_validator_rewrites_input (parse : List Char → Option (List Char))
    (hp : parse c10fixed = none) :
    (validate_query ("strict".toList) parse bankingSchema c10q
        = { safe := true, valid := true, message := "Query is valid.".toList,
            sql := some c10fixed })
    ∧ c10fixed ≠ c10q
    ∧ executedSql (validate_query ("strict".toList) parse bankingSchema c10q) c10q
        = c10fixed := by
  have hfix : fixStage c10q = c10fixed := by decide
  have hcs : check_safety ("strict".toList) c10fixed = (true, "Safe query.".toList) := by
    decide
  have hsv : validate_schema bankingSchema c10fixed
      = (true, "Schema validation passed.".toList) := by decide
  have hv : validate_query ("strict".toList) parse bankingSchema c10q
      = { safe := true, valid := true, message := "Query is valid.".toList,
          sql := some c10fixed } := by
    unfold validate_query
    dsimp only
    rw [hfix, hcs, hp, hsv]
    rfl
  refine ⟨hv, by decide, ?_⟩
  rw [hv]
  rfl

/-- Witness for C10 with the syntax probe accepting the rewritten text. -/
theorem C10_validator_rewrites_input_witness :
    (validate_query ("strict".toList) (fun _ => none) bankingSchema c10q
        = { safe := true, valid := true, message := "Query is valid.".toList,
            sql := some c10fixed })
    ∧ c10fixed ≠ c10q
    ∧ executedSql (validate_query ("strict".toList) (fun _ => none) bankingSchema c10q) c10q
        = c10fixed :=
  C10_validator_rewrites_input (fun _ => none) rfl

/-- **C9 (amended).**  The date-column correction rewrites the bare `date`
column words of the scenario input but restores the `date('now','-7 days')`
function call, which is written with `(` immediately after the name. -/
theorem C9_date_column_rewrite_scenario :
    date_column_fix
        ("SELECT date FROM transactions WHERE date > date('now','-7 days')".toList)
      = ("SELECT transaction_date FROM transactions WHERE transaction_date > date('now','-7 days')".toList) := by
  decide

/-- **C9 counterexample.**  A date function call written with a space
before the parenthesis is left rewritten as a column reference, so
function-call syntax is not never rewritten. -/
theorem C9_counterexample_spaced_function_call :
    (date_column_fix ("SELECT date ('now','-7 days')".toList)
        = ("SELECT transaction_date ('now','-7 days')".toList))
    ∧ (date_column_fix ("SELECT date ('now','-7 days')".toList)
        ≠ ("SELECT date ('now','-7 days')".toList)) := by
  refine ⟨by decide, by decide⟩

/-- **C4 counterexample.**  The correction pipeline is not idempotent: on
`"SELECT trasaction.id FROM trasactions"` the first pass only fixes the
typo, and a second pass further rewrites `transaction.id` to `t.id`.
Moreover the typo rule `employe → employee` has a replacement that contains
its own search target. -/
theorem C4_counterexample_not_idempotent :
    (correctPipeline (correctPipeline ("SELECT trasaction.id FROM trasactions".toList))
        ≠ correctPipeline ("SELECT trasaction.id FROM trasactions".toList))
    ∧ subB ("employe".toList) ("employee".toList) = true := by
  refine ⟨by decide, by decide⟩

/-- **C4 (amended).**  The correction pipeline is idempotent on the spec's
scenario inputs (though not on all texts). -/
theorem C4_idempotent_on_scenarios :
    (correctPipeline (correctPipeline ("SELECT c.name FROM customers c LIMIT 1000".toList))
        = correctPipeline ("SELECT c.name FROM customers c LIMIT 1000".toList))
    ∧ (correctPipeline (correctPipeline
          ("SELECT date FROM transactions WHERE date > date('now','-7 days')".toList))
        = correctPipeline
          ("SELECT date FROM transactions WHERE date > date('now','-7 days')".toList))
    ∧ (correctPipeline (correctPipeline ("SELECT * FROM accounts".toList))
        = correctPipeline ("SELECT * FROM accounts".toList)) := by
  refine ⟨by decide, by decide, by decide⟩

/-- **C6.**  Whenever the context is present and contains a
`clarifications` key — even with an empty clarifications mapping —
classification is skipped and a non-ambiguous result with an empty
question list is returned. -/
theorem C6_clarifications_key_skips_classification
    (u : List Char) (d : List (List Char × CtxVal))
    (h : ∃ v, (("clarifications".toList), v) ∈ d) :
    check_ambiguity u (some d)
      = { is_ambiguous := false,
          explanation := "Query enhanced with user clarifications or proceeding with smart defaults".toList,
          questions := [] } := by
  obtain ⟨v, hv⟩ := h
  have hany : (d.any fun pr => pr.1 == ("clarifications".toList)) = true := by
    rw [List.any_eq_true]
    exact ⟨_, hv, by simp⟩
  have hne : d.isEmpty = false := by
    cases d with
    | nil => cases hv
    | cons a l => rfl
  unfold check_ambiguity
  dsimp only
  rw [hne, hany]
  rfl

/-- Witness for C6: an empty clarifications mapping still skips. -/
theorem C6_clarifications_key_skips_classification_witness :
    check_ambiguity ("show recent transactions".toList)
        (some [(("clarifications".toList), CtxVal.dictV [])])
      = { is_ambiguous := false,
          explanation := "Query enhanced with user clarifications or proceeding with smart defaults".toList,
          questions := [] } :=
  C6_clarifications_key_skips_classification _ _ ⟨CtxVal.dictV [], by simp⟩

theorem simple_questions_le_two (u : List Char) :
    (simple_ambiguity_check u).questions.length ≤ 2 := by
  unfold simple_ambiguity_check
  dsimp only
  split
  · split
    · dsimp only
      rw [List.length_take]
      exact Nat.min_le_left ..
    · simp
  · split
    · simp
    · simp

/-- **C7.**  Time outranks magnitude: any context-free input containing
both `recent` and `large` is classified from the `recent` pattern (its
explanation and both of its questions, the cap keeping at most two); and
no call of the classifier ever returns more than two questions. -/
theorem C7_recent_outranks_large :
    (∀ u : List Char, subB ("recent".toList) (lowerL u) = true →
      subB ("large".toList) (lowerL u) = true →
      check_ambiguity u none
        = { is_ambiguous := true,
            explanation := "I need to know what time period you consider 'recent'.".toList,
            questions :=
              [("How recent? (e.g., 'last 7 days', 'last month', 'this year')".toList),
               ("Do you want the most recent items first?".toList)] })
    ∧ (∀ (u : List Char) (ctx : Option (List (List Char × CtxVal))),
        (check_ambiguity u ctx).questions.length ≤ 2) := by
  constructor
  · intro u h1 _
    show simple_ambiguity_check u = _
    unfold simple_ambiguity_check
    dsimp only
    have hfind : priorityTerms.find?
        (fun t => subB t (lowerL u) && (lookupPattern t).isSome)
        = some ("recent".toList) := by
      have hpred : (subB ("recent".toList) (lowerL u)
          && (lookupPattern ("recent".toList)).isSome) = true := by
        rw [h1]
        rfl
      exact List.find?_cons_of_pos _ hpred
    rw [hfind]
    rfl
  · intro u ctx
    unfold check_ambiguity
    cases ctx with
    | none => exact simple_questions_le_two u
    | some d =>
      dsimp only
      split
      · simp
      · exact simple_questions_le_two u

/-- Witness for C7 at a concrete input containing both trigger terms. -/
theorem C7_recent_outranks_large_witness :
    (check_ambiguity ("recent large payments".toList) none
      = { is_ambiguous := true,
          explanation := "I need to know what time period you consider 'recent'.".toList,
          questions :=
            [("How recent? (e.g., 'last 7 days', 'last month', 'this year')".toList),
             ("Do you want the most recent items first?".toList)] })
    ∧ (check_ambiguity ("show my balance".toList) none).questions.length ≤ 2 :=
  ⟨C7_recent_outranks_large.1 _ (by decide) (by decide),
    C7_recent_outranks_large.2 _ none⟩

/-- **C8 counterexample.**  `"now showing"` has two words, matches no
trigger term, and does not start with any action verb, so the claim
predicts an ambiguous result — but the code checks the verbs as substrings
anywhere, finds `show` inside `showing`, and returns not-ambiguous. -/
theorem C8_counterexample_contains_verb_substring :
    ((splitWs ("now showing".toList)).length ≤ 3
      ∧ (∀ t ∈ priorityTerms, subB t (lowerL ("now showing".toList)) = false)
      ∧ (∀ v ∈ actionVerbs, v.isPrefixOf (lowerL ("now showing".toList)) = false))
    ∧ (check_ambiguity ("now showing".toList) none).is_ambiguous = false := by
  refine ⟨⟨by decide, by decide, by decide⟩, by decide⟩

/-- **C8 (amended).**  For every input matching no trigger term: when it
has at most 3 words and no action verb occurs anywhere as a substring of
the lower-cased input, the classifier returns the two generic brief-query
questions; otherwise it returns not-ambiguous. -/
theorem C8_no_trigger_short_query (u : List Char)
    (hno : ∀ t ∈ priorityTerms, subB t (lowerL u) = false) :
    (((splitWs u).length ≤ 3 ∧ ∀ v ∈ actionVerbs, subB v (lowerL u) = false) →
      check_ambiguity u none
        = { is_ambiguous := true,
            explanation := "Your query is quite brief - a bit more detail would help me give you better results.".toList,
            questions := [("What specific information are you looking for?".toList),
                          ("Any particular time period or amount range?".toList)] })
    ∧ (¬((splitWs u).length ≤ 3 ∧ ∀ v ∈ actionVerbs, subB v (lowerL u) = false) →
      check_ambiguity u none
        = { is_ambiguous := false, explanation := "Query appears clear".toList,
            questions := [] }) := by
  have hfind : priorityTerms.find?
      (fun t => subB t (lowerL u) && (lookupPattern t).isSome) = none := by
    rw [List.find?_eq_none]
    intro t ht
    rw [hno t ht]
    simp
  constructor
  · intro ⟨hlen, hverb⟩
    show simple_ambiguity_check u = _
    unfold simple_ambiguity_check
    dsimp only
    rw [hfind]
    have hany : (actionVerbs.any fun w => subB w (lowerL u)) = false := by
      rw [List.any_eq_false]
      intro v hv
      rw [hverb v hv]
      simp
    have hcond : (decide ((splitWs u).length ≤ 3)
        && !(actionVerbs.any fun w => subB w (lowerL u))) = true := by
      rw [hany, decide_eq_true hlen]
      rfl
    dsimp only
    rw [if_pos hcond]
  · intro hnot
    show simple_ambiguity_check u = _
    unfold simple_ambiguity_check
    dsimp only
    rw [hfind]
    have hcond : (decide ((splitWs u).length ≤ 3)
        && !(actionVerbs.any fun w => subB w (lowerL u))) = false := by
      by_cases hA : (splitWs u).length ≤ 3
      · have hB : ¬(∀ v ∈ actionVerbs, subB v (lowerL u) = false) :=
          fun hB => hnot ⟨hA, hB⟩
        have hany : (actionVerbs.any fun w => subB w (lowerL u)) = true := by
          by_contra hany2
          rw [Bool.not_eq_true, List.any_eq_false] at hany2
          exact hB fun v hv => Bool.not_eq_true .. |>.mp (hany2 v hv)
        rw [hany]
        simp
      · rw [decide_eq_false hA]
        rfl
    dsimp only
    rw [if_neg (by rw [hcond]; simp)]

theorem subB_iff_inf (n : List Char) : ∀ s, subB n s = true ↔ n <:+: s := by
  intro s
  induction s with
  | nil =>
    constructor
    · intro h
      have hn : n = [] := by
        cases n with
        | nil => rfl
        | cons a l => exact Bool.noConfusion h
      rw [hn]
    · intro h
      have hn : n = [] := by
        have hh := h.length_le
        simp at hh
        exact hh
      rw [hn]
      rfl
  | cons c s ih =>
    show (n.isPrefixOf (c :: s) || subB n s) = true ↔ _
    rw [Bool.or_eq_true, List.isPrefixOf_iff_prefix, ih, List.infix_cons_iff]

theorem reverse_dropWhile_pre (p : Char → Bool) (s : List Char) :
    (s.reverse.dropWhile p).reverse <+: s := by
  have h1 : s.reverse.dropWhile p <:+ s.reverse := List.dropWhile_suffix p
  have h2 := List.reverse_prefix.mpr h1
  rwa [List.reverse_reverse] at h2

theorem rstripWs_pre (s : List Char) : rstripWs s <+: s :=
  reverse_dropWhile_pre isSpacePy s

theorem rstripSemi_pre (s : List Char) : rstripSemi s <+: s :=
  reverse_dropWhile_pre (· == ';') s

theorem lstripWs_suffix (s : List Char) : lstripWs s <:+ s :=
  List.dropWhile_suffix isSpacePy

theorem stripWs_inf (s : List Char) : stripWs s <:+: s :=
  List.IsInfix.trans (List.IsPrefix.isInfix (rstripWs_pre (lstripWs s)))
    (List.IsSuffix.isInfix (lstripWs_suffix s))

theorem no_limit_transfer {a q : List Char} (h : a <:+: q)
    (hn : ¬(("LIMIT".toList) <:+: upperL q)) : ¬(("LIMIT".toList) <:+: upperL a) :=
  fun hc => hn (hc.trans (List.IsInfix.map upChar h))

theorem infix_append_split {n x y : List Char} (h : n <:+: x ++ y) :
    n <:+: x ∨ n <:+: y ∨
      ∃ n1 n2, n = n1 ++ n2 ∧ n1 ≠ [] ∧ n2 ≠ [] ∧ n1 <:+ x ∧ n2 <+: y := by
  induction x with
  | nil =>
    rw [List.nil_append] at h
    exact Or.inr (Or.inl h)
  | cons c x' ih =>
    rw [List.cons_append] at h
    rcases List.infix_cons_iff.mp h with h | h
    · -- n is a prefix of c :: (x' ++ y)
      rcases Nat.lt_or_ge (c :: x').length n.length with hlt | hge
      · have hxp : (c :: x') <+: n :=
          @prefix_append_right n (c :: x') y (by rwa [← List.cons_append] at h) (by omega)
        obtain ⟨n2, rfl⟩ := hxp
        have hy2 : n2 <+: y := by
          obtain ⟨t, ht⟩ := h
          rw [← List.cons_append, List.append_assoc] at ht
          exact ⟨t, List.append_cancel_left ht⟩
        refine Or.inr (Or.inr ⟨c :: x', n2, rfl, by simp, ?_, List.suffix_refl _, hy2⟩)
        intro hn2e
        subst hn2e
        simp at hlt
      · left
        exact (@prefix_append_left n (c :: x') y (by rwa [← List.cons_append] at h) hge).isInfix
    · rcases ih h with h | h | ⟨n1, n2, heq, h1, h2, hsx, hpy⟩
      · exact Or.inl (List.infix_cons h)
      · exact Or.inr (Or.inl h)
      · exact Or.inr (Or.inr ⟨n1, n2, heq, h1, h2,
          hsx.trans (List.suffix_cons c x'), hpy⟩)

theorem prefix_append_over {p A B : List Char} (h : p <+: A ++ B)
    (hlen : A.length ≤ p.length) : p.drop A.length <+: B := by
  obtain ⟨u, hu⟩ := h
  refine ⟨u, ?_⟩
  have h2 := congrArg (List.drop A.length) hu
  rw [List.drop_append_eq_append_drop, Nat.sub_eq_zero_of_le hlen, List.drop_zero,
      List.drop_left] at h2
  exact h2

theorem no_infix_append_mid {n x y : List Char} (j : Char)
    (hj : ∀ c ∈ n, c ≠ j) (hx : ¬(n <:+: x)) (hy : ¬(n <:+: y)) :
    ¬(n <:+: x ++ [j] ++ y) := by
  intro h
  rcases infix_append_split h with h | h | ⟨n1, n2, heq, h1, h2, hsx, hpy⟩
  · rcases infix_append_split h with h | h | ⟨n1, n2, heq, h1, h2, hsx, hpy⟩
    · exact hx h
    · cases n with
      | nil => exact hx List.nil_infix
      | cons a n' =>
        have haj : a ∈ [j] := h.sublist.subset (List.mem_cons_self a n')
        rw [List.mem_singleton] at haj
        exact hj a (List.mem_cons_self a n') haj
    · cases n2 with
      | nil => exact h2 rfl
      | cons a n2' =>
        have haj : a ∈ [j] := hpy.sublist.subset (List.mem_cons_self a n2')
        rw [List.mem_singleton] at haj
        refine hj a ?_ haj
        rw [heq]
        exact List.mem_append_right n1 (List.mem_cons_self a n2')
  · exact hy h
  · have hr := List.reverse_prefix.mpr hsx
    rw [List.reverse_append] at hr
    cases hn1r : n1.reverse with
    | nil =>
      exact h1 (by simpa using congrArg List.reverse hn1r)
    | cons a r =>
      rw [hn1r] at hr
      have haj : a = j := by
        obtain ⟨t, ht⟩ := hr
        rw [List.cons_append] at ht
        have ht2 : a :: (r ++ t) = j :: x.reverse := ht
        injection ht2 with ha _
      have han : a ∈ n1 := by
        rw [← List.mem_reverse, hn1r]
        exact List.mem_cons_self a r
      refine hj a ?_ haj
      rw [heq]
      exact List.mem_append_left n2 han

theorem findSubAux_spec (n : List Char) :
    ∀ s i k, findSubAux n i s = some k → i ≤ k ∧ n <+: s.drop (k - i) := by
  intro s
  induction s with
  | nil =>
    intro i k h
    simp only [findSubAux] at h
    by_cases hn : n.isEmpty = true
    · rw [if_pos hn] at h
      injection h with hik
      subst hik
      refine ⟨le_refl i, ?_⟩
      cases n with
      | nil => simp
      | cons a l => exact absurd hn (by simp)
    · rw [if_neg hn] at h
      exact Option.noConfusion h
  | cons c s ih =>
    intro i k h
    simp only [findSubAux] at h
    by_cases hp : n.isPrefixOf (c :: s) = true
    · rw [if_pos hp] at h
      injection h with hik
      subst hik
      exact ⟨le_refl i, by simpa using List.isPrefixOf_iff_prefix.mp hp⟩
    · rw [if_neg hp] at h
      obtain ⟨h1, h2⟩ := ih (i + 1) k h
      refine ⟨by omega, ?_⟩
      have hki : k - i = (k - (i + 1)) + 1 := by omega
      rw [hki]
      exact h2

theorem findSubAux_isSome (n : List Char) :
    ∀ s i, subB n s = true → (findSubAux n i s).isSome = true := by
  intro s
  induction s with
  | nil =>
    intro i h
    have hn : n.isEmpty = true := h
    simp only [findSubAux]
    rw [if_pos hn]
    rfl
  | cons c s ih =>
    intro i h
    simp only [findSubAux]
    by_cases hp : n.isPrefixOf (c :: s) = true
    · rw [if_pos hp]
      rfl
    · rw [if_neg hp]
      apply ih
      have h2 : (n.isPrefixOf (c :: s) || subB n s) = true := h
      rw [Bool.not_eq_true] at hp
      rw [hp] at h2
      simpa using h2

theorem rstrip_decomp (s : List Char) :
    s = rstripWs s ++ (s.reverse.takeWhile isSpacePy).reverse := by
  have h : s.reverse.takeWhile isSpacePy ++ s.reverse.dropWhile isSpacePy = s.reverse := by
    simp
  have h2 := congrArg List.reverse h
  rw [List.reverse_append, List.reverse_reverse] at h2
  unfold rstripWs
  exact h2.symm

theorem upperL_rstrip_decomp (s : List Char) :
    upperL s = upperL (rstripWs s) ++ upperL ((s.reverse.takeWhile isSpacePy).reverse) := by
  unfold upperL
  rw [← List.map_append, ← rstrip_decomp]

theorem trailing_spaces (s : List Char) :
    ∀ c ∈ ((s.reverse.takeWhile isSpacePy).reverse), isSpacePy c = true := by
  intro c hc
  rw [List.mem_reverse] at hc
  exact List.mem_takeWhile_imp hc

theorem orderby_prefix_rstrip {s : List Char}
    (h : ("ORDER BY".toList) <+: upperL s) :
    ("ORDER BY".toList) <+: upperL (rstripWs s) := by
  have h8 : ("ORDER BY".toList).length = 8 := by decide
  have hlenA : (upperL (rstripWs s)).length = (rstripWs s).length := by
    simp [upperL]
  have hd2 := h
  rw [upperL_rstrip_decomp s] at hd2
  rcases Nat.lt_or_ge (rstripWs s).length 8 with hlt | hge
  · exfalso
    have hover := prefix_append_over hd2 (by rw [hlenA, h8]; omega)
    have hY : 'Y' ∈ ("ORDER BY".toList).drop (upperL (rstripWs s)).length := by
      have hball : ∀ m, m < 8 → 'Y' ∈ (("ORDER BY".toList).drop m) := by decide
      exact hball _ (by rw [hlenA]; omega)
    have hY2 : 'Y' ∈ upperL ((s.reverse.takeWhile isSpacePy).reverse) :=
      hover.sublist.subset hY
    simp only [upperL, List.mem_map] at hY2
    obtain ⟨c, hcmem, hcy⟩ := hY2
    have hsp := trailing_spaces s c hcmem
    rw [← isSpacePy_upChar, hcy] at hsp
    exact absurd hsp (by decide)
  · refine prefix_append_left hd2 ?_
    rw [h8, hlenA]
    omega

theorem lstripWs_of_head {c : Char} (s : List Char) (h : isSpacePy c = false) :
    lstripWs (c :: s) = c :: s := by
  unfold lstripWs
  rw [List.dropWhile_cons, h]
  simp

/-- C5: on a text with no `LIMIT` keyword (case-insensitively), the
result-size rule appends exactly one `LIMIT 1000` clause: the result is
some prefix text, still free of any `LIMIT`, followed by ` LIMIT 1000`;
when an `ORDER BY` clause is present, the clause is appended after a tail
segment that begins with the `ORDER BY` (so the ordering clause is not
interrupted); and a text that already contains a `LIMIT` keyword is
returned unchanged by the rule. -/
theorem C5_limit_bound :
    (∀ q : List Char, ¬(("LIMIT".toList) <:+: upperL q) →
      (∃ a, limitRule q = a ++ (" LIMIT 1000".toList) ∧
        ¬(("LIMIT".toList) <:+: upperL a)) ∧
      (("ORDER BY".toList) <:+: upperL q →
        ∃ b oc, limitRule q = (b ++ (" ".toList) ++ oc) ++ (" LIMIT 1000".toList) ∧
          ("ORDER BY".toList) <+: upperL oc)) ∧
    (∀ q : List Char, ("LIMIT".toList) <:+: upperL q → limitRule q = q) := by
  constructor
  · intro q hn
    have hsub : subB ("LIMIT".toList) (upperL q) = false := by
      rw [Bool.eq_false_iff]
      intro hc
      exact hn ((subB_iff_inf _ _).mp hc)
    have hlr : limitRule q = add_limit_safely q := by
      unfold limitRule
      rw [if_neg (by rw [hsub]; exact Bool.false_ne_true)]
    by_cases hob : subB ("ORDER BY".toList) (upperL q) = true
    · -- an ORDER BY clause is present
      obtain ⟨k, hk⟩ := Option.isSome_iff_exists.mp
        (findSubAux_isSome ("ORDER BY".toList) (upperL q) 0 hob)
      have hk' : findSub ("ORDER BY".toList) (upperL q) = some k := hk
      have hres : limitRule q =
          stripWs (q.take k) ++ (" ".toList) ++ stripWs (q.drop k)
            ++ (" LIMIT 1000".toList) := by
        rw [hlr]
        unfold add_limit_safely
        dsimp only
        rw [if_neg (by rw [hsub]; exact Bool.false_ne_true), if_pos hob, hk']
      have hAq : stripWs (q.take k) <:+: q :=
        (stripWs_inf _).trans (List.take_prefix k q).isInfix
      have hBq : stripWs (q.drop k) <:+: q :=
        (stripWs_inf _).trans (List.drop_suffix k q).isInfix
      have hxA : ¬(("LIMIT".toList) <:+: upperL (stripWs (q.take k))) :=
        no_limit_transfer hAq hn
      have hxB : ¬(("LIMIT".toList) <:+: upperL (stripWs (q.drop k))) :=
        no_limit_transfer hBq hn
      have h1 : List.map upChar ((" ").toList) = ([' ']) := by decide
      have hd : ("ORDER BY".toList) <+: upperL (q.drop k) := by
        have h2 := (findSubAux_spec ("ORDER BY".toList) (upperL q) 0 k hk).2
        have h3 : (upperL q).drop (k - 0) = upperL (q.drop k) := by
          rw [Nat.sub_zero]
          simp [upperL, List.map_drop]
        rw [h3] at h2
        exact h2
      obtain ⟨c0, d', hd0⟩ : ∃ c0 d', q.drop k = c0 :: d' := by
        cases hq : q.drop k with
        | nil =>
          rw [hq] at hd
          exact absurd hd.length_le (by decide)
        | cons a l => exact ⟨a, l, rfl⟩
      have hup : upChar c0 = 'O' := by
        have hd' := hd
        rw [hd0] at hd'
        obtain ⟨u, hu⟩ := hd'
        have hu2 : 'O' :: (("RDER BY".toList) ++ u) = upChar c0 :: List.map upChar d' := hu
        injection hu2 with hh _
        exact hh.symm
      have hns : isSpacePy c0 = false := by
        rw [← isSpacePy_upChar, hup]
        decide
      have hstrip : stripWs (q.drop k) = rstripWs (q.drop k) := by
        unfold stripWs
        rw [hd0, lstripWs_of_head d' hns]
      constructor
      · refine ⟨stripWs (q.take k) ++ (" ".toList) ++ stripWs (q.drop k), hres, ?_⟩
        intro hc
        refine @no_infix_append_mid ("LIMIT".toList) (upperL (stripWs (q.take k)))
          (upperL (stripWs (q.drop k))) ' ' (by decide) hxA hxB ?_
        simpa only [upperL, List.map_append, h1] using hc
      · intro _
        refine ⟨stripWs (q.take k), stripWs (q.drop k), hres, ?_⟩
        rw [hstrip]
        exact orderby_prefix_rstrip hd
    · -- no ORDER BY clause: the bound is appended at the end
      have hres : limitRule q =
          stripWs (rstripSemi (stripWs q)) ++ (" LIMIT 1000".toList) := by
        rw [hlr]
        unfold add_limit_safely
        dsimp only
        rw [if_neg (by rw [hsub]; exact Bool.false_ne_true), if_neg hob]
      constructor
      · refine ⟨stripWs (rstripSemi (stripWs q)), hres, ?_⟩
        refine no_limit_transfer ?_ hn
        exact (stripWs_inf _).trans
          ((rstripSemi_pre _).isInfix.trans (stripWs_inf _))
      · intro hOB
        exact absurd ((subB_iff_inf _ _).mpr hOB) hob
  · intro q hL
    unfold limitRule
    rw [if_pos ((subB_iff_inf _ _).mpr hL)]

theorem C5_limit_bound_witness :
    (∃ a, limitRule ("SELECT * FROM accounts ORDER BY balance".toList)
        = a ++ (" LIMIT 1000".toList) ∧
      ¬(("LIMIT".toList) <:+: upperL a)) ∧
    limitRule ("SELECT * FROM accounts LIMIT 5".toList)
      = ("SELECT * FROM accounts LIMIT 5".toList) :=
  ⟨(C5_limit_bound.1 ("SELECT * FROM accounts ORDER BY balance".toList)
      (fun hc => absurd ((subB_iff_inf _ _).mpr hc) (by decide))).1,
   C5_limit_bound.2 ("SELECT * FROM accounts LIMIT 5".toList)
     ((subB_iff_inf _ _).mp (by decide))⟩

theorem C8_no_trigger_short_query_witness :
    check_ambiguity ("total balance".toList) none
      = { is_ambiguous := true,
          explanation := "Your query is quite brief - a bit more detail would help me give you better results.".toList,
          questions := [("What specific information are you looking for?".toList),
                        ("Any particular time period or amount range?".toList)] } ∧
    check_ambiguity ("what is the total balance of all savings accounts".toList) none
      = { is_ambiguous := false, explanation := "Query appears clear".toList,
          questions := [] } :=
  ⟨(C8_no_trigger_short_query ("total balance".toList) (by decide)).1 (by decide),
   (C8_no_trigger_short_query ("what is the total balance of all savings accounts".toList)
      (by decide)).2 (by decide)⟩
